import Mathlib

/-!
Verification of the priority scheduler, priority-donation engine,
synchronization primitives and syscall argument validation of the group0
Pintos project.

The thread/synchronization layer is embedded from the C code and prose of
src/src/design_doc.md (the repository ships the design document and tests;
threads/thread.c, threads/synch.c and lib/kernel/list.c themselves are not
part of the source tree, so the list primitives and the scheduler hooks are
modelled from the specification, as marked on each such definition).
The syscall layer is embedded from src/src/userprog/syscall.c.
-/

/-! ## Generic descending-order list machinery

Embeds the behaviour of Pintos `list_insert_ordered` when used with a
strictly-greater comparator (design_doc.md: `thread_priority_greater`,
`donation_priority_greater`): the new element is placed before the first
element whose key is strictly smaller, hence after all elements with an
equal or larger key (FIFO among equals). -/

/-- Modelled from the spec: lib/kernel/list.c is not under src/.
`list_insert_ordered` with a strictly-greater comparator inserts the element
before the first existing element with a strictly smaller key. -/
def insert_desc {α : Type} (k : α → Int) (x : α) : List α → List α
  | [] => [x]
  | y :: ys => if k y < k x then x :: y :: ys else y :: insert_desc k x ys

theorem insert_desc_perm {α : Type} (k : α → Int) (x : α) (l : List α) :
    List.Perm (insert_desc k x l) (x :: l) := by
  induction l with
  | nil => exact List.Perm.refl _
  | cons y ys ih =>
    unfold insert_desc
    split
    · exact List.Perm.refl _
    · exact (ih.cons y).trans (List.Perm.swap x y ys)

theorem mem_insert_desc {α : Type} (k : α → Int) {x y : α} {l : List α} :
    y ∈ insert_desc k x l ↔ y = x ∨ y ∈ l := by
  rw [(insert_desc_perm k x l).mem_iff]
  exact List.mem_cons

/-- Sortedness by descending key: every later element has a key no larger
than every earlier one. -/
def SortedDesc {α : Type} (k : α → Int) (l : List α) : Prop :=
  l.Pairwise (fun a b => k b ≤ k a)

instance {α : Type} (k : α → Int) (l : List α) : Decidable (SortedDesc k l) := by
  unfold SortedDesc
  infer_instance

theorem insert_desc_sorted {α : Type} (k : α → Int) (x : α) {l : List α}
    (h : SortedDesc k l) : SortedDesc k (insert_desc k x l) := by
  induction l with
  | nil => exact List.pairwise_singleton _ _
  | cons y ys ih =>
    rw [SortedDesc, List.pairwise_cons] at h
    unfold insert_desc
    split
    · rename_i hlt
      refine List.pairwise_cons.mpr ⟨?_, List.pairwise_cons.mpr h⟩
      intro z hz
      rcases List.mem_cons.mp hz with hz | hz
      · subst hz; exact le_of_lt hlt
      · exact le_trans (h.1 z hz) (le_of_lt hlt)
    · rename_i hge
      refine List.pairwise_cons.mpr ⟨?_, ih h.2⟩
      intro z hz
      rcases (mem_insert_desc k).mp hz with hz | hz
      · subst hz; exact le_of_not_lt hge
      · exact h.1 z hz

theorem sortedDesc_head_max {α : Type} (k : α → Int) {m : α} {l : List α}
    (h : SortedDesc k (m :: l)) : ∀ t ∈ m :: l, k t ≤ k m := by
  intro t ht
  rcases List.mem_cons.mp ht with ht | ht
  · subst ht; exact le_refl _
  · exact (List.pairwise_cons.mp h).1 t ht

theorem insert_desc_filter {α : Type} (k : α → Int) (M : Int) (x : α)
    {l : List α} (hs : SortedDesc k l) (hl : ∀ y ∈ l, k y ≤ M) (hx : k x ≤ M) :
    (insert_desc k x l).filter (fun y => decide (M ≤ k y)) =
      l.filter (fun y => decide (M ≤ k y)) ++
        (if M ≤ k x then [x] else []) := by
  induction l with
  | nil =>
    unfold insert_desc
    by_cases h : M ≤ k x
    · rw [List.filter_cons_of_pos (by simpa using h)]
      simp [h]
    · rw [List.filter_cons_of_neg (by simpa using h)]
      simp [h]
  | cons y ys ih =>
    rw [SortedDesc, List.pairwise_cons] at hs
    unfold insert_desc
    split
    · rename_i hlt
      by_cases hMx : M ≤ k x
      · have hyM : ¬ (M ≤ k y) := by omega
        have hysnil : ys.filter (fun z => decide (M ≤ k z)) = [] := by
          refine List.filter_eq_nil_iff.mpr ?_
          intro z hz
          have h1 : k z ≤ k y := hs.1 z hz
          have h2 : k y < M := by omega
          simp only [decide_eq_true_eq]
          omega
        rw [List.filter_cons_of_pos (by simpa using hMx),
            List.filter_cons_of_neg (by simpa using hyM), hysnil]
        simp [hMx]
      · have hyM : ¬ (M ≤ k y) := by
          have h2 : k x ≤ M := hx
          have h3 : ¬ (M ≤ k x) := hMx
          omega
        have hysnil : ys.filter (fun z => decide (M ≤ k z)) = [] := by
          refine List.filter_eq_nil_iff.mpr ?_
          intro z hz
          have h1 : k z ≤ k y := hs.1 z hz
          simp only [decide_eq_true_eq]
          omega
        rw [List.filter_cons_of_neg (by simpa using hMx),
            List.filter_cons_of_neg (by simpa using hyM), hysnil]
        simp [hMx]
    · have hrec := ih hs.2 (fun z hz => hl z (List.mem_cons_of_mem y hz))
      by_cases hyM : M ≤ k y
      · rw [List.filter_cons_of_pos (by simpa using hyM),
            List.filter_cons_of_pos (by simpa using hyM), hrec]
        simp
      · rw [List.filter_cons_of_neg (by simpa using hyM),
            List.filter_cons_of_neg (by simpa using hyM), hrec]

theorem find?_eq_head?_filter {α : Type} (p : α → Bool) (l : List α) :
    l.find? p = (l.filter p).head? := by
  induction l with
  | nil => rfl
  | cons a t ih =>
    by_cases h : p a
    · rw [List.find?_cons_of_pos _ h, List.filter_cons_of_pos h]
      rfl
    · rw [List.find?_cons_of_neg _ h, List.filter_cons_of_neg h, ih]

theorem foldl_insert_desc_sorted {α : Type} (k : α → Int) (ts : List α) :
    ∀ q : List α, SortedDesc k q →
      SortedDesc k (ts.foldl (fun acc t => insert_desc k t acc) q) := by
  induction ts with
  | nil => intro q hq; exact hq
  | cons t ts ih =>
    intro q hq
    exact ih (insert_desc k t q) (insert_desc_sorted k t hq)

theorem foldl_insert_desc_perm {α : Type} (k : α → Int) (ts : List α) :
    ∀ q : List α,
      List.Perm (ts.foldl (fun acc t => insert_desc k t acc) q) (ts ++ q) := by
  induction ts with
  | nil => intro q; exact List.Perm.refl _
  | cons t ts ih =>
    intro q
    have h1 := ih (insert_desc k t q)
    have h2 : List.Perm (ts ++ insert_desc k t q) (ts ++ t :: q) :=
      List.Perm.append_left ts (insert_desc_perm k t q)
    have h3 : List.Perm (ts ++ t :: q) (t :: (ts ++ q)) := List.perm_middle
    exact (h1.trans h2).trans h3

theorem foldl_insert_desc_filter {α : Type} (k : α → Int) (M : Int)
    (ts : List α) :
    ∀ q : List α, SortedDesc k q → (∀ y ∈ q, k y ≤ M) → (∀ y ∈ ts, k y ≤ M) →
      (ts.foldl (fun acc t => insert_desc k t acc) q).filter
          (fun y => decide (M ≤ k y)) =
        q.filter (fun y => decide (M ≤ k y)) ++
          ts.filter (fun y => decide (M ≤ k y)) := by
  induction ts with
  | nil => intro q _ _ _; simp
  | cons t ts ih =>
    intro q hq hqM htsM
    have htM : k t ≤ M := htsM t (List.mem_cons_self t ts)
    have hq2 : SortedDesc k (insert_desc k t q) := insert_desc_sorted k t hq
    have hq2M : ∀ y ∈ insert_desc k t q, k y ≤ M := by
      intro y hy
      rcases (mem_insert_desc k).mp hy with hy | hy
      · subst hy; exact htM
      · exact hqM y hy
    have hrec := ih (insert_desc k t q) hq2 hq2M
      (fun y hy => htsM y (List.mem_cons_of_mem t hy))
    have hins := insert_desc_filter k M t hq hqM htM
    simp only [List.foldl_cons]
    rw [hrec, hins]
    by_cases hMt : M ≤ k t
    · rw [List.filter_cons_of_pos (by simpa using hMt)]
      simp [hMt]
    · rw [List.filter_cons_of_neg (by simpa using hMt)]
      simp [hMt]

/-- First-maximal extraction: removes and returns the earliest element whose
key is maximal in the list. Modelled from the spec: the Ordered Wait Queue
re-derives order immediately before `pop_highest` so that the consumer wakes
the true highest-priority candidate (spec section 4.1); ties go to the
earliest-enqueued element. -/
def pop_highest {α : Type} (k : α → Int) : List α → Option (α × List α)
  | [] => none
  | w :: ws =>
    match pop_highest k ws with
    | none => some (w, ws)
    | some (m, rest) =>
      if k w < k m then some (m, w :: rest) else some (w, ws)

theorem pop_highest_none {α : Type} (k : α → Int) :
    ∀ l : List α, pop_highest k l = none ↔ l = [] := by
  intro l
  cases l with
  | nil => simp [pop_highest]
  | cons w ws =>
    constructor
    · intro h
      exfalso
      unfold pop_highest at h
      rcases hws : pop_highest k ws with _ | ⟨m, rest⟩ <;> rw [hws] at h
      · simp at h
      · by_cases hlt : k w < k m <;> simp [hlt] at h
    · intro h; simp at h

theorem pop_highest_perm {α : Type} (k : α → Int) :
    ∀ {l : List α} {m : α} {rest : List α},
      pop_highest k l = some (m, rest) → List.Perm l (m :: rest) := by
  intro l
  induction l with
  | nil => intro m rest h; simp [pop_highest] at h
  | cons w ws ih =>
    intro m rest h
    unfold pop_highest at h
    rcases hws : pop_highest k ws with _ | p
    · rw [hws] at h
      simp only [Option.some.injEq, Prod.mk.injEq] at h
      rw [← h.1, ← h.2]
    · rw [hws] at h
      rcases p with ⟨m0, r0⟩
      by_cases hlt : k w < k m0
      · simp only [hlt, if_true, Option.some.injEq, Prod.mk.injEq] at h
        rw [← h.1, ← h.2]
        exact ((ih hws).cons w).trans (List.Perm.swap m0 w r0)
      · simp only [hlt, if_false, Option.some.injEq, Prod.mk.injEq] at h
        rw [← h.1, ← h.2]

theorem pop_highest_max {α : Type} (k : α → Int) :
    ∀ {l : List α} {m : α} {rest : List α},
      pop_highest k l = some (m, rest) → ∀ x ∈ l, k x ≤ k m := by
  intro l
  induction l with
  | nil => intro m rest h; simp [pop_highest] at h
  | cons w ws ih =>
    intro m rest h x hx
    unfold pop_highest at h
    rcases hws : pop_highest k ws with _ | p
    · rw [hws] at h
      simp only [Option.some.injEq, Prod.mk.injEq] at h
      have hnil : ws = [] := (pop_highest_none k ws).mp hws
      subst hnil
      rcases List.mem_cons.mp hx with hx | hx
      · subst hx; rw [← h.1]
      · simp at hx
    · rw [hws] at h
      rcases p with ⟨m0, r0⟩
      by_cases hlt : k w < k m0
      · simp only [hlt, if_true, Option.some.injEq, Prod.mk.injEq] at h
        rcases List.mem_cons.mp hx with hx | hx
        · subst hx; rw [← h.1]; exact le_of_lt hlt
        · rw [← h.1]; exact ih hws x hx
      · simp only [hlt, if_false, Option.some.injEq, Prod.mk.injEq] at h
        rcases List.mem_cons.mp hx with hx | hx
        · subst hx; rw [← h.1]
        · rw [← h.1]
          exact le_trans (ih hws x hx) (le_of_not_lt hlt)

/-! ## Threads, donations and effective priority

Embedded from design_doc.md: `struct thread` gains `priority` (the base
priority), `donations` (sorted descending), `donating_to` and `held_locks`;
`struct donation` carries `donated_priority`, `donor` and `lock`. Threads
and locks are identified by numeric ids. -/

structure Donation where
  donated_priority : Int
  donor : Nat
  lock : Nat
deriving DecidableEq

structure Thread where
  priority : Int
  donations : List Donation
  donating_to : Option Nat
  held_locks : List Nat
deriving DecidableEq

/-- Modelled from the spec: threads/thread.c is not under src/.
design_doc.md: thread_get_priority returns
max(base_priority, highest_donation_priority); since donations are kept
sorted the highest donation is the front of the donations list. -/
def thread_get_priority (t : Thread) : Int :=
  match t.donations with
  | [] => t.priority
  | d :: _ => max t.priority d.donated_priority

/-- Specification-side definition of effective priority (spec section 4.2):
max(base_priority, max over received_donations of amount, default
negative infinity); the fold realises the max with the base priority as the
neutral starting point, which is equivalent to the stated default. -/
def effective_priority_spec (t : Thread) : Int :=
  t.donations.foldr (fun d acc => max d.donated_priority acc) t.priority

def donations_max (b : Int) (ds : List Donation) : Int :=
  ds.foldr (fun d acc => max d.donated_priority acc) b

theorem le_donations_max (b : Int) (ds : List Donation) :
    b ≤ donations_max b ds := by
  induction ds with
  | nil => exact le_refl _
  | cons d t ih => exact le_trans ih (le_max_right _ _)

theorem donation_le_max (b : Int) {ds : List Donation} {d : Donation}
    (h : d ∈ ds) : d.donated_priority ≤ donations_max b ds := by
  induction ds with
  | nil => simp at h
  | cons e t ih =>
    rcases List.mem_cons.mp h with h | h
    · subst h; exact le_max_left _ _
    · exact le_trans (ih h) (le_max_right _ _)

theorem donations_max_le {b c : Int} {ds : List Donation} (hb : b ≤ c)
    (hds : ∀ d ∈ ds, d.donated_priority ≤ c) : donations_max b ds ≤ c := by
  induction ds with
  | nil => exact hb
  | cons e t ih =>
    refine max_le (hds e (List.mem_cons_self e t)) ?_
    exact ih (fun d hd => hds d (List.mem_cons_of_mem e hd))

theorem donations_max_congr (b : Int) {ds₁ ds₂ : List Donation}
    (h : ∀ d : Donation, d ∈ ds₁ ↔ d ∈ ds₂) :
    donations_max b ds₁ = donations_max b ds₂ := by
  refine le_antisymm ?_ ?_
  · exact donations_max_le (le_donations_max b ds₂)
      (fun d hd => donation_le_max b ((h d).mp hd))
  · exact donations_max_le (le_donations_max b ds₁)
      (fun d hd => donation_le_max b ((h d).mpr hd))

def donation_key (d : Donation) : Int := d.donated_priority

theorem thread_get_priority_eq_max {t : Thread}
    (h : SortedDesc donation_key t.donations) :
    thread_get_priority t = donations_max t.priority t.donations := by
  rcases hds : t.donations with _ | ⟨d, ds⟩
  · simp [thread_get_priority, donations_max, hds]
  · rw [hds] at h
    rw [SortedDesc, List.pairwise_cons] at h
    unfold thread_get_priority
    rw [hds]
    simp only
    have h1 : donations_max t.priority (d :: ds) =
        max d.donated_priority (donations_max t.priority ds) := rfl
    rw [h1]
    refine le_antisymm (max_le ?_ ?_) (max_le ?_ ?_)
    · exact le_trans (le_donations_max _ _) (le_max_right _ _)
    · exact le_max_left _ _
    · exact le_max_right _ _
    · refine donations_max_le (le_max_left _ _) ?_
      intro e he
      exact le_trans (h.1 e he) (le_max_right t.priority d.donated_priority)

theorem effective_priority_spec_eq (t : Thread) :
    effective_priority_spec t = donations_max t.priority t.donations := rfl

/-! ## Ready queue and dispatch

design_doc.md: the ready queue is kept sorted by effective priority
(highest first) via list_insert_ordered with `thread_priority_greater`;
`next_thread_to_run` returns the front of the ready list. -/

def thread_priority_greater (a b : Thread) : Bool :=
  decide (thread_get_priority b < thread_get_priority a)

/-- Ready-queue insertion (design_doc.md thread enqueueing):
list_insert_ordered with the `thread_priority_greater` comparator. -/
def ready_insert_ordered (t : Thread) (q : List Thread) : List Thread :=
  insert_desc thread_get_priority t q

/-- Ready queue built by enqueueing the given threads in order into an
initially empty queue. -/
def buildReady (ts : List Thread) : List Thread :=
  ts.foldl (fun q t => ready_insert_ordered t q) []

/-- Modelled from the spec: threads/thread.c is not under src/.
design_doc.md: next_thread_to_run simply returns the front of the ready
list, which contains the highest priority ready thread. -/
def next_thread_to_run (q : List Thread) : Option Thread := q.head?

theorem ready_insert_ordered_eq (t : Thread) (q : List Thread) :
    ready_insert_ordered t q = insert_desc thread_get_priority t q := rfl

/-- Claim C1: for every set of READY threads, the scheduler's dispatch step
always selects the thread with the numerically greatest effective priority,
and among threads of equal effective priority it selects the one enqueued
earliest (FIFO among equals): the dispatched thread is precisely the first
element of the enqueue order whose effective priority is maximal. -/
theorem next_thread_is_first_max (ts : List Thread) (h : ts ≠ []) :
    ∃ m : Thread, next_thread_to_run (buildReady ts) = some m ∧
      (∀ t ∈ ts, thread_get_priority t ≤ thread_get_priority m) ∧
      ts.find?
        (fun t => decide (thread_get_priority m ≤ thread_get_priority t)) =
        some m := by
  have hperm : List.Perm (buildReady ts) ts := by
    have h1 := foldl_insert_desc_perm thread_get_priority ts []
    simpa [buildReady, ready_insert_ordered] using h1
  have hsorted : SortedDesc thread_get_priority (buildReady ts) := by
    have h1 := foldl_insert_desc_sorted thread_get_priority ts []
      (List.Pairwise.nil)
    simpa [buildReady, ready_insert_ordered] using h1
  have hne : buildReady ts ≠ [] := by
    intro hc
    exact h (List.Perm.eq_nil ((hc ▸ hperm).symm))
  rcases hBR : buildReady ts with _ | ⟨m, rest⟩
  · exact absurd hBR hne
  refine ⟨m, rfl, ?_, ?_⟩
  · intro t ht
    have htB : t ∈ buildReady ts := hperm.mem_iff.mpr ht
    rw [hBR] at htB
    exact sortedDesc_head_max thread_get_priority (hBR ▸ hsorted) t htB
  · have hmax : ∀ t ∈ ts, thread_get_priority t ≤ thread_get_priority m := by
      intro t ht
      have htB : t ∈ buildReady ts := hperm.mem_iff.mpr ht
      rw [hBR] at htB
      exact sortedDesc_head_max thread_get_priority (hBR ▸ hsorted) t htB
    rw [find?_eq_head?_filter]
    have hfilter := foldl_insert_desc_filter thread_get_priority
      (thread_get_priority m) ts [] List.Pairwise.nil (by intro y hy; simp at hy)
      hmax
    have hBfilter :
        (buildReady ts).filter
            (fun t => decide (thread_get_priority m ≤ thread_get_priority t)) =
          ts.filter
            (fun t => decide (thread_get_priority m ≤ thread_get_priority t)) := by
      have h2 : buildReady ts =
          ts.foldl (fun acc t => insert_desc thread_get_priority t acc) [] := by
        simp [buildReady, ready_insert_ordered]
      rw [h2, hfilter]
      simp
    rw [← hBfilter, hBR, List.filter_cons_of_pos (by simp)]
    rfl

/-- Witness for Claim C1 at a concrete enqueue order: two maximal-priority
threads (effective priorities 33, 34, 34, 31); the dispatched thread is the
earliest-enqueued of the two with priority 34. -/
theorem next_thread_is_first_max_witness :
    ([⟨33, [], none, []⟩, ⟨34, [], none, []⟩,
      ⟨34, [], none, []⟩, ⟨31, [], none, []⟩] : List Thread) ≠ [] ∧
    ∃ m : Thread,
      next_thread_to_run (buildReady
        [⟨33, [], none, []⟩, ⟨34, [], none, []⟩,
         ⟨34, [], none, []⟩, ⟨31, [], none, []⟩]) = some m ∧
      (∀ t ∈ ([⟨33, [], none, []⟩, ⟨34, [], none, []⟩,
               ⟨34, [], none, []⟩, ⟨31, [], none, []⟩] : List Thread),
        thread_get_priority t ≤ thread_get_priority m) ∧
      ([⟨33, [], none, []⟩, ⟨34, [], none, []⟩,
        ⟨34, [], none, []⟩, ⟨31, [], none, []⟩] : List Thread).find?
        (fun t => decide (thread_get_priority m ≤ thread_get_priority t)) =
        some m :=
  ⟨by decide, next_thread_is_first_max
    [⟨33, [], none, []⟩, ⟨34, [], none, []⟩,
     ⟨34, [], none, []⟩, ⟨31, [], none, []⟩] (by decide)⟩

/-- Claim C2: a thread's effective priority equals the maximum of its base
priority and the largest donated amount (defaulting to the base priority
alone when the donation collection is empty), and it is a pure function of
the thread's current base priority and donation set. -/
theorem thread_get_priority_spec {t : Thread}
    (h : SortedDesc donation_key t.donations) :
    thread_get_priority t = effective_priority_spec t ∧
    (t.donations = [] → thread_get_priority t = t.priority) ∧
    (∀ t₂ : Thread, t₂.priority = t.priority → t₂.donations = t.donations →
      thread_get_priority t₂ = thread_get_priority t) := by
  refine ⟨?_, ?_, ?_⟩
  · rw [thread_get_priority_eq_max h, effective_priority_spec_eq]
  · intro hnil
    unfold thread_get_priority
    rw [hnil]
  · intro t₂ hp hd
    unfold thread_get_priority
    rw [hp, hd]

/-- Witness for Claim C2 on a concrete thread: base priority 30 with sorted
donations of amounts 60 and 45 gives effective priority max(30, 60). -/
theorem thread_get_priority_spec_witness :
    SortedDesc donation_key
      (Thread.mk 30 [⟨60, 7, 3⟩, ⟨45, 8, 4⟩] none []).donations ∧
    thread_get_priority (Thread.mk 30 [⟨60, 7, 3⟩, ⟨45, 8, 4⟩] none []) =
      effective_priority_spec (Thread.mk 30 [⟨60, 7, 3⟩, ⟨45, 8, 4⟩] none []) :=
  ⟨by decide,
   (thread_get_priority_spec (t := Thread.mk 30 [⟨60, 7, 3⟩, ⟨45, 8, 4⟩] none [])
     (by decide)).1⟩

/-! ## Semaphores

design_doc.md: struct semaphore carries an unsigned value and a waiters
list; the waiters list is treated as a priority queue whose order is
re-derived at wake time (spec section 4.1). Thread ids stand for the
blocked threads. -/

structure Semaphore where
  value : Int
  waiters : List Nat
deriving DecidableEq

/-- Modelled from the spec: threads/synch.c is not under src/.
Semaphore.down (spec section 4.4): if count > 0, decrement and return
immediately (no blocking); otherwise append the calling thread to the
waiters and block. The returned Bool reports whether the caller blocked. -/
def sema_down (cur : Nat) (s : Semaphore) : Semaphore × Bool :=
  if 0 < s.value then ({ s with value := s.value - 1 }, false)
  else ({ s with waiters := s.waiters ++ [cur] }, true)

/-- Modelled from the spec: threads/synch.c is not under src/.
Semaphore.up (spec section 4.4): if waiters is non-empty, pop the highest
priority waiter (to be made READY by the caller); always increment count
regardless of whether a waiter existed; up never blocks (it is a total
function). The popped thread id is returned. -/
def sema_up (thr : Nat → Thread) (s : Semaphore) : Semaphore × Option Nat :=
  match pop_highest (fun w => thread_get_priority (thr w)) s.waiters with
  | none => ({ s with value := s.value + 1 }, none)
  | some (w, rest) => ({ value := s.value + 1, waiters := rest }, some w)

/-- Claim C6: sema_up never blocks and always increments count (even with no
waiter), sema_down with positive count decrements without blocking, count
never drops below zero, and an up performed before any down is remembered:
the subsequent down takes the fast path and does not block. -/
theorem sema_up_down_spec (thr : Nat → Thread) (s : Semaphore)
    (cur other : Nat) (hnn : 0 ≤ s.value) :
    (sema_up thr s).1.value = s.value + 1 ∧
    (0 < s.value →
      sema_down cur s = ({ s with value := s.value - 1 }, false)) ∧
    0 ≤ (sema_down cur s).1.value ∧
    0 ≤ (sema_up thr s).1.value ∧
    (sema_down other (sema_up thr s).1).2 = false ∧
    (sema_down other (sema_up thr s).1).1.value = s.value := by
  have hup : (sema_up thr s).1.value = s.value + 1 := by
    unfold sema_up
    rcases hpop : pop_highest (fun w => thread_get_priority (thr w)) s.waiters
      with _ | ⟨w, rest⟩ <;> simp [hpop]
  refine ⟨hup, ?_, ?_, ?_, ?_, ?_⟩
  · intro hpos
    unfold sema_down
    rw [if_pos hpos]
  · unfold sema_down
    by_cases hpos : 0 < s.value
    · rw [if_pos hpos]; simp; omega
    · rw [if_neg hpos]; simpa using hnn
  · rw [hup]; omega
  · unfold sema_down
    rw [if_pos (by rw [hup]; omega)]
  · unfold sema_down
    rw [if_pos (by rw [hup]; omega)]
    simp [hup]

/-- Witness for Claim C6 at a concrete semaphore with count 0 and no
waiters: up then down leaves count 0 and the down does not block. -/
theorem sema_up_down_spec_witness :
    (0 : Int) ≤ (Semaphore.mk 0 []).value ∧
    (sema_down 5 (sema_up (fun _ => Thread.mk 31 [] none [])
      (Semaphore.mk 0 [])).1).2 = false :=
  ⟨by decide,
   (sema_up_down_spec (fun _ => Thread.mk 31 [] none [])
     (Semaphore.mk 0 []) 4 5 (by decide)).2.2.2.2.1⟩

/-! ## Locks and the kernel state

design_doc.md: struct lock is a holder pointer plus a semaphore. The kernel
state maps thread ids to thread records and lock ids to lock records. -/

structure LockState where
  holder : Option Nat
  semaphore : Semaphore
deriving DecidableEq

structure KState where
  threads : Nat → Thread
  locks : Nat → LockState

def updThread (thr : Nat → Thread) (i : Nat) (t : Thread) : Nat → Thread :=
  fun j => if j = i then t else thr j

def updLock (lks : Nat → LockState) (i : Nat) (lk : LockState) :
    Nat → LockState :=
  fun j => if j = i then lk else lks j

theorem updThread_same (thr : Nat → Thread) (i : Nat) (t : Thread) :
    updThread thr i t i = t := by simp [updThread]

theorem updThread_other (thr : Nat → Thread) (i j : Nat) (t : Thread)
    (h : j ≠ i) : updThread thr i t j = thr j := by simp [updThread, h]

/-- design_doc.md `find_donation_by_donor_and_donee`: search the donee's
donations list for the donation made by the given donor. -/
def find_donation_by_donor (ds : List Donation) (donor : Nat) :
    Option Donation :=
  ds.find? (fun d => d.donor == donor)

/-- design_doc.md lock_acquire: donations are inserted into the holder's
sorted donations list with `donation_priority_greater`. -/
def donation_insert_ordered (d : Donation) (ds : List Donation) :
    List Donation :=
  insert_desc donation_key d ds

/-- design_doc.md: `list_sort(&next->donations, donation_priority_greater,
NULL)` re-sorts a donations list descending by amount; embedded as an
insertion sort with the same comparator. -/
def list_sort_donations (ds : List Donation) : List Donation :=
  ds.foldr donation_insert_ordered []

theorem list_sort_donations_perm (ds : List Donation) :
    List.Perm (list_sort_donations ds) ds := by
  induction ds with
  | nil => exact List.Perm.refl _
  | cons d t ih =>
    exact (insert_desc_perm donation_key d (list_sort_donations t)).trans
      (ih.cons d)

theorem list_sort_donations_sorted (ds : List Donation) :
    SortedDesc donation_key (list_sort_donations ds) := by
  induction ds with
  | nil => exact List.Pairwise.nil
  | cons d t ih => exact insert_desc_sorted donation_key d ih

/-- design_doc.md lock_acquire chain raising: the donation found for the
given donor has its `donated_priority` overwritten with the new amount
(`existing->donated_priority = donation.donated_priority`). -/
def raise_donation (donor : Nat) (amt : Int) : List Donation → List Donation
  | [] => []
  | d :: ds =>
    if d.donor == donor then { d with donated_priority := amt } :: ds
    else d :: raise_donation donor amt ds

/-- One raising step of the chain walk applied to the recipient thread:
overwrite the found donation's amount and re-sort the donations list. -/
def raise_and_sort (r : Nat) (amt : Int) (t : Thread) : Thread :=
  { t with donations := list_sort_donations (raise_donation r amt t.donations) }

/-- design_doc.md lock_acquire chain walk: starting from the lock holder,
follow `donating_to`; whenever the current recipient has an existing
donation toward the next thread with a smaller amount, raise it to the new
amount and re-sort that thread's donations; continue until a thread that is
not donating (fuel bounds the walk, which in the running system is bounded
by the number of locks since chains cannot cycle). -/
def chain_walk (amt : Int) : Nat → (Nat → Thread) → Nat → (Nat → Thread)
  | 0, thr, _ => thr
  | Nat.succ fuel, thr, r =>
    match (thr r).donating_to with
    | none => thr
    | some next =>
      match find_donation_by_donor (thr next).donations r with
      | none => chain_walk amt fuel thr next
      | some ex =>
        if ex.donated_priority < amt then
          chain_walk amt fuel
            (updThread thr next (raise_and_sort r amt (thr next))) next
        else chain_walk amt fuel thr next

/-- Thread map after the pre-walk part of the contended lock_acquire path:
the new donation is inserted (sorted) into the holder's donations and the
caller's donating_to is set to the holder. -/
def donate_thr (s : KState) (cur l h0 : Nat) : Nat → Thread :=
  let amt := thread_get_priority (s.threads cur)
  let ds1 := donation_insert_ordered ⟨amt, cur, l⟩ (s.threads h0).donations
  let thr1 := updThread s.threads h0 { s.threads h0 with donations := ds1 }
  updThread thr1 cur { thr1 cur with donating_to := some h0 }

/-- design_doc.md lock_acquire, contended path before blocking: create the
donation {amount = effective priority of the caller, donor = caller,
lock = this lock}, insert it sorted into the holder's donations, set the
caller's donating_to to the holder, and walk the donation chain. On an
uncontended lock no donation state changes. -/
def lock_acquire_donate (s : KState) (cur l : Nat) (fuel : Nat) : KState :=
  match (s.locks l).holder with
  | none => s
  | some h0 =>
    let amt := thread_get_priority (s.threads cur)
    let thr2 := chain_walk amt fuel (donate_thr s cur l h0) h0
    { s with threads := thr2 }

/-- design_doc.md lock_release donation removal loop: walk the donations
list and remove every donation whose lock equals the released lock. -/
def remove_lock_donations (l : Nat) : List Donation → List Donation
  | [] => []
  | d :: ds =>
    if d.lock = l then remove_lock_donations l ds
    else d :: remove_lock_donations l ds

theorem remove_lock_donations_eq_filter (l : Nat) (ds : List Donation) :
    remove_lock_donations l ds = ds.filter (fun d => !(d.lock == l)) := by
  induction ds with
  | nil => rfl
  | cons d t ih =>
    unfold remove_lock_donations
    by_cases h : d.lock = l
    · rw [if_pos h, List.filter_cons_of_neg (by simp [h]), ih]
    · rw [if_neg h, List.filter_cons_of_pos (by simp [h]), ih]

/-- Thread map after the releasing thread has dropped the lock from its
held_locks and run the donation removal loop of design_doc.md lock_release. -/
def release_thr (s : KState) (cur l : Nat) : Nat → Thread :=
  updThread s.threads cur
    { s.threads cur with
        held_locks := (s.threads cur).held_locks.erase l,
        donations := remove_lock_donations l (s.threads cur).donations }

/-- design_doc.md lock_release: remove the lock from held_locks, remove all
donations associated with this lock, clear the holder, and wake the
highest-priority waiter of the lock's semaphore (returned as the second
component; the caller makes it READY). -/
def lock_release (s : KState) (cur l : Nat) : KState × Option Nat :=
  match pop_highest (fun w => thread_get_priority (release_thr s cur l w))
      (s.locks l).semaphore.waiters with
  | some (w, rest) =>
    ({ threads := release_thr s cur l,
       locks := updLock s.locks l
         { holder := none,
           semaphore := Semaphore.mk ((s.locks l).semaphore.value + 1) rest } },
     some w)
  | none =>
    ({ threads := release_thr s cur l,
       locks := updLock s.locks l
         { holder := none,
           semaphore := Semaphore.mk ((s.locks l).semaphore.value + 1)
             (s.locks l).semaphore.waiters } },
     none)

/-- design_doc.md lock_acquire, after the blocking sema_down returns: the
woken thread becomes the holder, clears its donating_to, and appends the
lock to its held_locks. -/
def lock_acquire_finish (s : KState) (cur l : Nat) : KState :=
  { threads := updThread s.threads cur
      { s.threads cur with donating_to := none,
                           held_locks := (s.threads cur).held_locks ++ [l] },
    locks := updLock s.locks l { s.locks l with holder := some cur } }

/-- Combined release-and-handoff step: the holder releases the lock and the
woken highest-priority waiter (if any) resumes inside lock_acquire and
completes acquisition, becoming the new holder. -/
def lock_release_handoff (s : KState) (cur l : Nat) : KState × Option Nat :=
  match lock_release s cur l with
  | (s1, some w) => (lock_acquire_finish s1 w l, some w)
  | (s1, none) => (s1, none)

theorem updLock_same (lks : Nat → LockState) (i : Nat) (lk : LockState) :
    updLock lks i lk i = lk := by simp [updLock]

theorem updLock_other (lks : Nat → LockState) (i j : Nat) (lk : LockState)
    (h : j ≠ i) : updLock lks i lk j = lks j := by simp [updLock, h]

theorem thread_get_priority_ext {t₁ t₂ : Thread}
    (hp : t₂.priority = t₁.priority) (hd : t₂.donations = t₁.donations) :
    thread_get_priority t₂ = thread_get_priority t₁ := by
  unfold thread_get_priority
  rw [hp, hd]

theorem lock_release_threads (s : KState) (cur l : Nat) :
    (lock_release s cur l).1.threads = release_thr s cur l := by
  unfold lock_release
  rcases hpop : pop_highest
      (fun w => thread_get_priority (release_thr s cur l w))
      ((s.locks l).semaphore.waiters) with _ | ⟨w, rest⟩ <;>
    simp only [hpop]

/-- Claim C4: lock_release on one lock removes exactly the donations whose
source lock equals the released lock: the holder's remaining donations are
precisely the original ones tied to other locks, in order; every donation
tied to another lock survives; and no other thread's record changes. -/
theorem lock_release_selective (s : KState) (cur l : Nat) :
    ((lock_release s cur l).1.threads cur).donations =
      (s.threads cur).donations.filter (fun d => !(d.lock == l)) ∧
    (∀ d ∈ ((lock_release s cur l).1.threads cur).donations, d.lock ≠ l) ∧
    (∀ d ∈ (s.threads cur).donations, d.lock ≠ l →
      d ∈ ((lock_release s cur l).1.threads cur).donations) ∧
    (∀ t : Nat, t ≠ cur → (lock_release s cur l).1.threads t = s.threads t) := by
  have hthr := lock_release_threads s cur l
  have hcur : ((lock_release s cur l).1.threads cur).donations =
      (s.threads cur).donations.filter (fun d => !(d.lock == l)) := by
    rw [hthr]
    unfold release_thr
    rw [updThread_same]
    exact remove_lock_donations_eq_filter l (s.threads cur).donations
  refine ⟨hcur, ?_, ?_, ?_⟩
  · intro d hd
    rw [hcur] at hd
    have := (List.mem_filter.mp hd).2
    simpa using this
  · intro d hd hdl
    rw [hcur]
    exact List.mem_filter.mpr ⟨hd, by simpa using hdl⟩
  · intro t ht
    rw [hthr]
    unfold release_thr
    rw [updThread_other _ _ _ _ ht]

/-- Claim C5: after a holder releases a lock on which threads were waiting,
if all of the holder's donations were tied to this lock then its effective
priority returns to its base priority; the highest-priority waiter is woken,
becomes the lock's holder, and runs at its own (unchanged) effective
priority. -/
theorem lock_release_retraction (s : KState) (cur l : Nat)
    (hne : (s.locks l).semaphore.waiters ≠ [])
    (hdon : ∀ d ∈ (s.threads cur).donations, d.lock = l)
    (hcur : cur ∉ (s.locks l).semaphore.waiters) :
    ∃ w : Nat,
      (lock_release_handoff s cur l).2 = some w ∧
      w ∈ (s.locks l).semaphore.waiters ∧
      (∀ x ∈ (s.locks l).semaphore.waiters,
        thread_get_priority (s.threads x) ≤ thread_get_priority (s.threads w)) ∧
      thread_get_priority ((lock_release_handoff s cur l).1.threads cur) =
        (s.threads cur).priority ∧
      ((lock_release_handoff s cur l).1.locks l).holder = some w ∧
      thread_get_priority ((lock_release_handoff s cur l).1.threads w) =
        thread_get_priority (s.threads w) := by
  rcases hpop : pop_highest
      (fun w => thread_get_priority (release_thr s cur l w))
      (s.locks l).semaphore.waiters with _ | ⟨w, rest⟩
  · exact absurd ((pop_highest_none _ _).mp hpop) hne
  have hwmem : w ∈ (s.locks l).semaphore.waiters :=
    (pop_highest_perm _ hpop).symm.mem_iff.mp (List.mem_cons_self w rest)
  have hwne : w ≠ cur := fun hc => hcur (hc ▸ hwmem)
  have hrel : lock_release s cur l =
      ({ threads := release_thr s cur l,
         locks := updLock s.locks l
           { holder := none,
             semaphore := Semaphore.mk ((s.locks l).semaphore.value + 1)
               rest } }, some w) := by
    unfold lock_release
    rw [hpop]
  have hhand : lock_release_handoff s cur l =
      (lock_acquire_finish
        { threads := release_thr s cur l,
          locks := updLock s.locks l
            { holder := none,
              semaphore := Semaphore.mk ((s.locks l).semaphore.value + 1)
                rest } } w l, some w) := by
    unfold lock_release_handoff
    rw [hrel]
  have hthr_other : ∀ x : Nat, x ≠ cur → release_thr s cur l x = s.threads x := by
    intro x hx
    unfold release_thr
    exact updThread_other _ _ _ _ hx
  have hfin_threads :
      (lock_release_handoff s cur l).1.threads =
        updThread (release_thr s cur l) w
          { release_thr s cur l w with
              donating_to := none,
              held_locks := (release_thr s cur l w).held_locks ++ [l] } := by
    rw [hhand]
    rfl
  refine ⟨w, by rw [hhand], hwmem, ?_, ?_, ?_, ?_⟩
  · intro x hx
    have hxne : x ≠ cur := fun hc => hcur (hc ▸ hx)
    have h1 := pop_highest_max _ hpop x hx
    simp only at h1
    rw [hthr_other x hxne, hthr_other w hwne] at h1
    exact h1
  · rw [hfin_threads, updThread_other _ _ _ _ (Ne.symm hwne)]
    unfold release_thr
    rw [updThread_same]
    have hnil : remove_lock_donations l (s.threads cur).donations = [] := by
      rw [remove_lock_donations_eq_filter]
      refine List.filter_eq_nil_iff.mpr ?_
      intro d hd
      simp [hdon d hd]
    unfold thread_get_priority
    rw [hnil]
  · rw [hhand]
    unfold lock_acquire_finish
    simp only [updLock_same]
  · rw [hfin_threads, updThread_same]
    have h1 : thread_get_priority
        { release_thr s cur l w with
            donating_to := none,
            held_locks := (release_thr s cur l w).held_locks ++ [l] } =
        thread_get_priority (release_thr s cur l w) :=
      thread_get_priority_ext rfl rfl
    rw [h1, hthr_other w hwne]

/-- Witness for Claim C5: L (id 1, base 10) holds lock 5 carrying H's
donation of 60; H (id 2, base 60) waits on lock 5. After release-and-handoff
L reports 10, H is the holder and reports 60. -/
theorem lock_release_retraction_witness :
    ((KState.mk
        (fun i => if i = 1 then Thread.mk 10 [Donation.mk 60 2 5] none [5]
          else if i = 2 then Thread.mk 60 [] (some 1) []
          else Thread.mk 31 [] none [])
        (fun j => if j = 5 then LockState.mk (some 1) (Semaphore.mk 0 [2])
          else LockState.mk none (Semaphore.mk 1 []))).locks 5).semaphore.waiters
      ≠ [] ∧
    ∃ w : Nat,
      (lock_release_handoff
        (KState.mk
          (fun i => if i = 1 then Thread.mk 10 [Donation.mk 60 2 5] none [5]
            else if i = 2 then Thread.mk 60 [] (some 1) []
            else Thread.mk 31 [] none [])
          (fun j => if j = 5 then LockState.mk (some 1) (Semaphore.mk 0 [2])
            else LockState.mk none (Semaphore.mk 1 []))) 1 5).2 = some w ∧
      w ∈ ((KState.mk
        (fun i => if i = 1 then Thread.mk 10 [Donation.mk 60 2 5] none [5]
          else if i = 2 then Thread.mk 60 [] (some 1) []
          else Thread.mk 31 [] none [])
        (fun j => if j = 5 then LockState.mk (some 1) (Semaphore.mk 0 [2])
          else LockState.mk none (Semaphore.mk 1 []))).locks 5).semaphore.waiters ∧
      (∀ x ∈ ((KState.mk
        (fun i => if i = 1 then Thread.mk 10 [Donation.mk 60 2 5] none [5]
          else if i = 2 then Thread.mk 60 [] (some 1) []
          else Thread.mk 31 [] none [])
        (fun j => if j = 5 then LockState.mk (some 1) (Semaphore.mk 0 [2])
          else LockState.mk none (Semaphore.mk 1 []))).locks 5).semaphore.waiters,
        thread_get_priority ((KState.mk
          (fun i => if i = 1 then Thread.mk 10 [Donation.mk 60 2 5] none [5]
            else if i = 2 then Thread.mk 60 [] (some 1) []
            else Thread.mk 31 [] none [])
          (fun j => if j = 5 then LockState.mk (some 1) (Semaphore.mk 0 [2])
            else LockState.mk none (Semaphore.mk 1 []))).threads x) ≤
          thread_get_priority ((KState.mk
            (fun i => if i = 1 then Thread.mk 10 [Donation.mk 60 2 5] none [5]
              else if i = 2 then Thread.mk 60 [] (some 1) []
              else Thread.mk 31 [] none [])
            (fun j => if j = 5 then LockState.mk (some 1) (Semaphore.mk 0 [2])
              else LockState.mk none (Semaphore.mk 1 []))).threads w)) ∧
      thread_get_priority ((lock_release_handoff
        (KState.mk
          (fun i => if i = 1 then Thread.mk 10 [Donation.mk 60 2 5] none [5]
            else if i = 2 then Thread.mk 60 [] (some 1) []
            else Thread.mk 31 [] none [])
          (fun j => if j = 5 then LockState.mk (some 1) (Semaphore.mk 0 [2])
            else LockState.mk none (Semaphore.mk 1 []))) 1 5).1.threads 1) =
        ((KState.mk
          (fun i => if i = 1 then Thread.mk 10 [Donation.mk 60 2 5] none [5]
            else if i = 2 then Thread.mk 60 [] (some 1) []
            else Thread.mk 31 [] none [])
          (fun j => if j = 5 then LockState.mk (some 1) (Semaphore.mk 0 [2])
            else LockState.mk none (Semaphore.mk 1 []))).threads 1).priority ∧
      ((lock_release_handoff
        (KState.mk
          (fun i => if i = 1 then Thread.mk 10 [Donation.mk 60 2 5] none [5]
            else if i = 2 then Thread.mk 60 [] (some 1) []
            else Thread.mk 31 [] none [])
          (fun j => if j = 5 then LockState.mk (some 1) (Semaphore.mk 0 [2])
            else LockState.mk none (Semaphore.mk 1 []))) 1 5).1.locks 5).holder
        = some w ∧
      thread_get_priority ((lock_release_handoff
        (KState.mk
          (fun i => if i = 1 then Thread.mk 10 [Donation.mk 60 2 5] none [5]
            else if i = 2 then Thread.mk 60 [] (some 1) []
            else Thread.mk 31 [] none [])
          (fun j => if j = 5 then LockState.mk (some 1) (Semaphore.mk 0 [2])
            else LockState.mk none (Semaphore.mk 1 []))) 1 5).1.threads w) =
        thread_get_priority ((KState.mk
          (fun i => if i = 1 then Thread.mk 10 [Donation.mk 60 2 5] none [5]
            else if i = 2 then Thread.mk 60 [] (some 1) []
            else Thread.mk 31 [] none [])
          (fun j => if j = 5 then LockState.mk (some 1) (Semaphore.mk 0 [2])
            else LockState.mk none (Semaphore.mk 1 []))).threads w) :=
  ⟨by decide,
   lock_release_retraction
     (KState.mk
       (fun i => if i = 1 then Thread.mk 10 [Donation.mk 60 2 5] none [5]
         else if i = 2 then Thread.mk 60 [] (some 1) []
         else Thread.mk 31 [] none [])
       (fun j => if j = 5 then LockState.mk (some 1) (Semaphore.mk 0 [2])
         else LockState.mk none (Semaphore.mk 1 []))) 1 5
     (by decide) (by decide) (by decide)⟩

/-- design_doc.md lock_acquire entry: on an unheld lock the caller takes the
semaphore's fast path and becomes holder directly; on a held lock it runs
the donation phase and then blocks on the lock's semaphore (appended to the
waiters; it suspends until lock_release wakes it). -/
def lock_acquire_start (s : KState) (cur l : Nat) (fuel : Nat) : KState :=
  match (s.locks l).holder with
  | none =>
    { threads := updThread s.threads cur
        { s.threads cur with
            donating_to := none,
            held_locks := (s.threads cur).held_locks ++ [l] },
      locks := updLock s.locks l
        { holder := some cur,
          semaphore := Semaphore.mk ((s.locks l).semaphore.value - 1)
            (s.locks l).semaphore.waiters } }
  | some _ =>
    let s1 := lock_acquire_donate s cur l fuel
    let lk1 := s1.locks l
    let lk2 := LockState.mk lk1.holder
      (Semaphore.mk lk1.semaphore.value (lk1.semaphore.waiters ++ [cur]))
    { s1 with locks := updLock s1.locks l lk2 }

/-- Pintos lock_held_by_current_thread: whether the given thread is the
holder of the lock. -/
def lock_held_by_current_thread (s : KState) (cur l : Nat) : Bool :=
  decide ((s.locks l).holder = some cur)

/-- Modelled from the spec: threads/synch.c with its ASSERT preconditions is
not under src/. Releasing a lock not held by the caller is a fatal
assertion failure (spec section 7): no successor state is produced. -/
def lock_release_checked (s : KState) (cur l : Nat) :
    Option (KState × Option Nat) :=
  if lock_held_by_current_thread s cur l then some (lock_release s cur l)
  else none

/-- Modelled from the spec: threads/synch.c with its ASSERT preconditions is
not under src/. Double-acquiring a lock already held by the caller is a
fatal assertion failure (spec section 7): no successor state is produced. -/
def lock_acquire_checked (s : KState) (cur l : Nat) (fuel : Nat) :
    Option KState :=
  if lock_held_by_current_thread s cur l then none
  else some (lock_acquire_start s cur l fuel)

/-- Claim C7: calling lock_release on a lock not held by the caller, or
lock_acquire on a lock already held by the caller, hits a fatal assertion:
the operation produces no successor state (no return, no state mutation)
rather than proceeding. -/
theorem lock_assertion_errors (s : KState) (cur l fuel : Nat) :
    ((s.locks l).holder ≠ some cur → lock_release_checked s cur l = none) ∧
    ((s.locks l).holder = some cur →
      lock_acquire_checked s cur l fuel = none) := by
  constructor
  · intro h
    unfold lock_release_checked lock_held_by_current_thread
    simp [h]
  · intro h
    unfold lock_acquire_checked lock_held_by_current_thread
    simp [h]

/-- Witness for Claim C7: in a state where thread 3 holds lock 9, a release
by thread 1 and a second acquire by thread 3 are both fatal. -/
theorem lock_assertion_errors_witness :
    lock_release_checked
      (KState.mk (fun _ => Thread.mk 31 [] none [9])
        (fun _ => LockState.mk (some 3) (Semaphore.mk 0 []))) 1 9 = none ∧
    lock_acquire_checked
      (KState.mk (fun _ => Thread.mk 31 [] none [9])
        (fun _ => LockState.mk (some 3) (Semaphore.mk 0 []))) 3 9 7 = none :=
  ⟨(lock_assertion_errors
      (KState.mk (fun _ => Thread.mk 31 [] none [9])
        (fun _ => LockState.mk (some 3) (Semaphore.mk 0 []))) 1 9 7).1
      (by decide),
   (lock_assertion_errors
      (KState.mk (fun _ => Thread.mk 31 [] none [9])
        (fun _ => LockState.mk (some 3) (Semaphore.mk 0 []))) 3 9 7).2
      (by decide)⟩

/-! ## Chain-walk properties: donations are only ever raised -/

/-- Invariant maintained by the donation engine: every thread's donations
list is sorted descending by amount (design_doc.md keeps donation lists
sorted at all times). -/
def AllSorted (thr : Nat → Thread) : Prop :=
  ∀ t : Nat, SortedDesc donation_key (thr t).donations

/-- One donations list refines another when every donation of the first
appears in the second with the same donor and lock and an amount at least
as large. -/
def DonPreserved (ds1 ds2 : List Donation) : Prop :=
  ∀ d ∈ ds1, ∃ d2 ∈ ds2, d2.donor = d.donor ∧ d2.lock = d.lock ∧
    d.donated_priority ≤ d2.donated_priority

theorem donPreserved_refl (ds : List Donation) : DonPreserved ds ds :=
  fun d hd => ⟨d, hd, rfl, rfl, le_refl _⟩

theorem donPreserved_trans {a b c : List Donation} (h1 : DonPreserved a b)
    (h2 : DonPreserved b c) : DonPreserved a c := by
  intro d hd
  obtain ⟨d2, hd2, he1, he2, hle⟩ := h1 d hd
  obtain ⟨d3, hd3, hf1, hf2, hle2⟩ := h2 d2 hd2
  exact ⟨d3, hd3, hf1.trans he1, hf2.trans he2, hle.trans hle2⟩

theorem donPreserved_perm {a b c : List Donation} (h1 : DonPreserved a b)
    (hp : List.Perm b c) : DonPreserved a c := by
  intro d hd
  obtain ⟨d2, hd2, he⟩ := h1 d hd
  exact ⟨d2, hp.mem_iff.mp hd2, he⟩

theorem donations_max_le_of_preserved {b : Int} {ds1 ds2 : List Donation}
    (h : DonPreserved ds1 ds2) : donations_max b ds1 ≤ donations_max b ds2 := by
  refine donations_max_le (le_donations_max _ _) ?_
  intro d hd
  obtain ⟨d2, hd2, _, _, hle⟩ := h d hd
  exact hle.trans (donation_le_max b hd2)

theorem raise_donation_preserved {r : Nat} {amt : Int} :
    ∀ {ds : List Donation} {ex : Donation},
      find_donation_by_donor ds r = some ex →
      ex.donated_priority ≤ amt →
      DonPreserved ds (raise_donation r amt ds) := by
  intro ds
  induction ds with
  | nil => intro ex h _; simp [find_donation_by_donor] at h
  | cons d t ih =>
    intro ex hf hle
    unfold find_donation_by_donor at hf
    by_cases hd : d.donor == r
    · simp only [List.find?_cons, hd] at hf
      have heq : d = ex := Option.some.inj hf
      intro e he
      unfold raise_donation
      rw [if_pos hd]
      rcases List.mem_cons.mp he with he | he
      · subst he
        refine ⟨{ e with donated_priority := amt },
          List.mem_cons_self _ _, rfl, rfl, ?_⟩
        rw [heq]
        exact hle
      · exact ⟨e, List.mem_cons_of_mem _ he, rfl, rfl, le_refl _⟩
    · have hd2 : (d.donor == r) = false := by simpa using hd
      simp only [List.find?_cons, hd2] at hf
      intro e he
      unfold raise_donation
      rw [if_neg hd]
      rcases List.mem_cons.mp he with he | he
      · subst he
        exact ⟨e, List.mem_cons_self _ _, rfl, rfl, le_refl _⟩
      · obtain ⟨d2, hd2, hprops⟩ := ih hf hle e he
        exact ⟨d2, List.mem_cons_of_mem _ hd2, hprops⟩

theorem raise_donation_mem {r : Nat} (amt : Int) :
    ∀ {ds : List Donation} {ex : Donation},
      find_donation_by_donor ds r = some ex →
      ∃ d2 ∈ raise_donation r amt ds, d2.donated_priority = amt := by
  intro ds
  induction ds with
  | nil => intro ex h; simp [find_donation_by_donor] at h
  | cons d t ih =>
    intro ex hf
    unfold find_donation_by_donor at hf
    by_cases hd : d.donor == r
    · refine ⟨{ d with donated_priority := amt }, ?_, rfl⟩
      unfold raise_donation
      rw [if_pos hd]
      exact List.mem_cons_self _ _
    · have hd3 : (d.donor == r) = false := by simpa using hd
      simp only [List.find?_cons, hd3] at hf
      obtain ⟨d2, hd2, hamt⟩ := ih hf
      refine ⟨d2, ?_, hamt⟩
      unfold raise_donation
      rw [if_neg hd]
      exact List.mem_cons_of_mem _ hd2

theorem chain_walk_fields (amt : Int) :
    ∀ (fuel : Nat) (thr : Nat → Thread) (r t : Nat),
      (chain_walk amt fuel thr r t).priority = (thr t).priority ∧
      (chain_walk amt fuel thr r t).donating_to = (thr t).donating_to ∧
      (chain_walk amt fuel thr r t).held_locks = (thr t).held_locks := by
  intro fuel
  induction fuel with
  | zero => intro thr r t; exact ⟨rfl, rfl, rfl⟩
  | succ fuel ih =>
    intro thr r t
    unfold chain_walk
    rcases hdt : (thr r).donating_to with _ | next
    · simp [hdt]
    · simp only [hdt]
      rcases hf : find_donation_by_donor (thr next).donations r with _ | ex
      · simp only [hf]
        exact ih thr next t
      · simp only [hf]
        by_cases hex : ex.donated_priority < amt
        · simp only [hex, if_true]
          have h1 := ih (updThread thr next (raise_and_sort r amt (thr next)))
            next t
          have h2 : (updThread thr next (raise_and_sort r amt (thr next))
                t).priority = (thr t).priority ∧
              (updThread thr next (raise_and_sort r amt (thr next))
                t).donating_to = (thr t).donating_to ∧
              (updThread thr next (raise_and_sort r amt (thr next))
                t).held_locks = (thr t).held_locks := by
            by_cases ht : t = next
            · subst ht
              rw [updThread_same]
              exact ⟨rfl, rfl, rfl⟩
            · rw [updThread_other _ _ _ _ ht]
              exact ⟨rfl, rfl, rfl⟩
          exact ⟨h1.1.trans h2.1, h1.2.1.trans h2.2.1, h1.2.2.trans h2.2.2⟩
        · simp only [hex, if_false]
          exact ih thr next t

theorem chain_walk_sorted (amt : Int) :
    ∀ (fuel : Nat) (thr : Nat → Thread) (r : Nat),
      AllSorted thr → AllSorted (chain_walk amt fuel thr r) := by
  intro fuel
  induction fuel with
  | zero => intro thr r hs; exact hs
  | succ fuel ih =>
    intro thr r hs
    unfold chain_walk
    rcases hdt : (thr r).donating_to with _ | next
    · simp only [hdt]; exact hs
    · simp only [hdt]
      rcases hf : find_donation_by_donor (thr next).donations r with _ | ex
      · simp only [hf]; exact ih thr next hs
      · simp only [hf]
        by_cases hex : ex.donated_priority < amt
        · simp only [hex, if_true]
          refine ih _ next ?_
          intro t
          by_cases ht : t = next
          · subst ht
            rw [updThread_same]
            exact list_sort_donations_sorted _
          · rw [updThread_other _ _ _ _ ht]
            exact hs t
        · simp only [hex, if_false]; exact ih thr next hs

theorem chain_walk_preserved (amt : Int) :
    ∀ (fuel : Nat) (thr : Nat → Thread) (r t : Nat),
      DonPreserved (thr t).donations (chain_walk amt fuel thr r t).donations := by
  intro fuel
  induction fuel with
  | zero => intro thr r t; exact donPreserved_refl _
  | succ fuel ih =>
    intro thr r t
    unfold chain_walk
    rcases hdt : (thr r).donating_to with _ | next
    · simp only [hdt]; exact donPreserved_refl _
    · simp only [hdt]
      rcases hf : find_donation_by_donor (thr next).donations r with _ | ex
      · simp only [hf]; exact ih thr next t
      · simp only [hf]
        by_cases hex : ex.donated_priority < amt
        · simp only [hex, if_true]
          have hstep : DonPreserved (thr t).donations
              ((updThread thr next (raise_and_sort r amt (thr next))
                t).donations) := by
            by_cases ht : t = next
            · subst ht
              rw [updThread_same]
              exact donPreserved_perm
                (raise_donation_preserved hf (le_of_lt hex))
                (list_sort_donations_perm _).symm
            · rw [updThread_other _ _ _ _ ht]
              exact donPreserved_refl _
          exact donPreserved_trans hstep (ih _ next t)
        · simp only [hex, if_false]; exact ih thr next t

theorem chain_walk_pri_mono (amt : Int) (fuel : Nat) (thr : Nat → Thread)
    (r : Nat) (hs : AllSorted thr) (t : Nat) :
    thread_get_priority (thr t) ≤
      thread_get_priority (chain_walk amt fuel thr r t) := by
  have h2 := chain_walk_sorted amt fuel thr r hs
  rw [thread_get_priority_eq_max (hs t), thread_get_priority_eq_max (h2 t),
      (chain_walk_fields amt fuel thr r t).1]
  exact donations_max_le_of_preserved (chain_walk_preserved amt fuel thr r t)

theorem updThread_priority (thr : Nat → Thread) (i : Nat) (X : Thread)
    (j : Nat) (h : X.priority = (thr i).priority) :
    (updThread thr i X j).priority = (thr j).priority := by
  by_cases hj : j = i
  · rw [hj, updThread_same, h]
  · rw [updThread_other _ _ _ _ hj]

theorem donate_thr_donations (s : KState) (cur l h0 t : Nat) :
    (donate_thr s cur l h0 t).donations =
      (updThread s.threads h0 (Thread.mk (s.threads h0).priority
        (donation_insert_ordered
          (Donation.mk (thread_get_priority (s.threads cur)) cur l)
          (s.threads h0).donations)
        (s.threads h0).donating_to (s.threads h0).held_locks) t).donations := by
  simp only [donate_thr]
  by_cases ht : t = cur
  · rw [ht, updThread_same]
  · rw [updThread_other _ _ _ _ ht]

theorem donate_thr_priority (s : KState) (cur l h0 t : Nat) :
    (donate_thr s cur l h0 t).priority = (s.threads t).priority := by
  simp only [donate_thr]
  by_cases ht : t = cur
  · rw [ht, updThread_same]
    dsimp only
    by_cases hc : cur = h0
    · rw [hc, updThread_same]
    · rw [updThread_other _ _ _ _ hc]
  · rw [updThread_other _ _ _ _ ht]
    by_cases hh : t = h0
    · rw [hh, updThread_same]
    · rw [updThread_other _ _ _ _ hh]

theorem donate_thr_sorted (s : KState) (cur l h0 : Nat)
    (hs : AllSorted s.threads) : AllSorted (donate_thr s cur l h0) := by
  intro t
  rw [SortedDesc] at *
  rw [donate_thr_donations]
  by_cases hh : t = h0
  · rw [hh, updThread_same]
    exact insert_desc_sorted donation_key _ (hs h0)
  · rw [updThread_other _ _ _ _ hh]
    exact hs t

theorem donate_thr_preserved (s : KState) (cur l h0 t : Nat) :
    DonPreserved (s.threads t).donations (donate_thr s cur l h0 t).donations := by
  rw [donate_thr_donations]
  by_cases hh : t = h0
  · rw [hh, updThread_same]
    intro d hd
    exact ⟨d, (mem_insert_desc donation_key).mpr (Or.inr hd), rfl, rfl,
      le_refl _⟩
  · rw [updThread_other _ _ _ _ hh]
    exact donPreserved_refl _

theorem donate_thr_pri_mono (s : KState) (cur l h0 : Nat)
    (hs : AllSorted s.threads) (t : Nat) :
    thread_get_priority (s.threads t) ≤
      thread_get_priority (donate_thr s cur l h0 t) := by
  rw [thread_get_priority_eq_max (hs t),
      thread_get_priority_eq_max (donate_thr_sorted s cur l h0 hs t),
      donate_thr_priority]
  exact donations_max_le_of_preserved (donate_thr_preserved s cur l h0 t)

theorem donate_thr_holder_pri (s : KState) (cur l h0 : Nat)
    (hs : AllSorted s.threads) :
    thread_get_priority (s.threads cur) ≤
      thread_get_priority (donate_thr s cur l h0 h0) := by
  rw [thread_get_priority_eq_max (donate_thr_sorted s cur l h0 hs h0)]
  have hmem : Donation.mk (thread_get_priority (s.threads cur)) cur l ∈
      (donate_thr s cur l h0 h0).donations := by
    rw [donate_thr_donations, updThread_same]
    exact (mem_insert_desc donation_key).mpr (Or.inl rfl)
  exact donation_le_max (donate_thr s cur l h0 h0).priority hmem

/-- Claim C9: during lock_acquire's chain walk an existing donation amount
is only ever raised (and only when strictly smaller than the new donation's
amount), never lowered: after the donation phase every donation of every
thread is still present with the same donor and lock and an amount at least
as large, and no thread's effective priority decreases. -/
theorem lock_acquire_no_decrease (s : KState) (cur l fuel : Nat)
    (hs : AllSorted s.threads) :
    (∀ t : Nat, thread_get_priority (s.threads t) ≤
      thread_get_priority ((lock_acquire_donate s cur l fuel).threads t)) ∧
    (∀ t : Nat, DonPreserved (s.threads t).donations
      ((lock_acquire_donate s cur l fuel).threads t).donations) := by
  unfold lock_acquire_donate
  rcases hh : (s.locks l).holder with _ | h0
  · simp only [hh]
    exact ⟨fun t => le_refl _, fun t => donPreserved_refl _⟩
  · simp only [hh]
    constructor
    · intro t
      refine le_trans (donate_thr_pri_mono s cur l h0 hs t) ?_
      exact chain_walk_pri_mono _ fuel (donate_thr s cur l h0) h0
        (donate_thr_sorted s cur l h0 hs) t
    · intro t
      exact donPreserved_trans (donate_thr_preserved s cur l h0 t)
        (chain_walk_preserved _ fuel (donate_thr s cur l h0) h0 t)

/-- Running example from design_doc.md (Recursive Donation Example):
thread 1 is L (base 10, holds lock 11, carrying M's donation of 30),
thread 2 is M (base 30, holds lock 10, blocked on lock 11 donating to L),
thread 3 is H (base 60, about to acquire lock 10). -/
def exampleThreads : Nat → Thread := fun i =>
  if i = 1 then Thread.mk 10 [Donation.mk 30 2 11] none [11]
  else if i = 2 then Thread.mk 30 [] (some 1) [10]
  else if i = 3 then Thread.mk 60 [] none []
  else Thread.mk 31 [] none []

def exampleLocks : Nat → LockState := fun j =>
  if j = 10 then LockState.mk (some 2) (Semaphore.mk 0 [])
  else if j = 11 then LockState.mk (some 1) (Semaphore.mk 0 [2])
  else LockState.mk none (Semaphore.mk 1 [])

def exampleState : KState := KState.mk exampleThreads exampleLocks

theorem exampleThreads_sorted : AllSorted exampleThreads := by
  intro t
  simp only [exampleThreads]
  by_cases h1 : t = 1
  · rw [if_pos h1]; decide
  · rw [if_neg h1]
    by_cases h2 : t = 2
    · rw [if_pos h2]; decide
    · rw [if_neg h2]
      by_cases h3 : t = 3
      · rw [if_pos h3]; decide
      · rw [if_neg h3]; decide

/-- Witness for Claim C9 on the running example: H (id 3) acquiring lock 10
lowers no thread's effective priority and preserves every donation. -/
theorem lock_acquire_no_decrease_witness :
    AllSorted exampleState.threads ∧
    ((∀ t : Nat, thread_get_priority (exampleState.threads t) ≤
      thread_get_priority ((lock_acquire_donate exampleState 3 10 5).threads t)) ∧
     (∀ t : Nat, DonPreserved (exampleState.threads t).donations
      ((lock_acquire_donate exampleState 3 10 5).threads t).donations)) :=
  ⟨exampleThreads_sorted,
   lock_acquire_no_decrease exampleState 3 10 5 exampleThreads_sorted⟩

/-- A donation chain: starting from r, each listed thread is the
donating_to target of the previous one and already holds a donation from
it (the state after each link of the chain blocked inside lock_acquire,
spec section 4.4 step 3). -/
def ChainFrom (thr : Nat → Thread) : Nat → List Nat → Prop
  | _, [] => True
  | r, next :: rest =>
    (thr r).donating_to = some next ∧
    (find_donation_by_donor (thr next).donations r).isSome = true ∧
    ChainFrom thr next rest

def chainFromDec (thr : Nat → Thread) :
    (r : Nat) → (rest : List Nat) → Decidable (ChainFrom thr r rest)
  | _, [] => Decidable.isTrue trivial
  | r, next :: rest =>
    have : Decidable (ChainFrom thr next rest) := chainFromDec thr next rest
    inferInstanceAs (Decidable ((thr r).donating_to = some next ∧
      (find_donation_by_donor (thr next).donations r).isSome = true ∧
      ChainFrom thr next rest))

instance (thr : Nat → Thread) (r : Nat) (rest : List Nat) :
    Decidable (ChainFrom thr r rest) := chainFromDec thr r rest

theorem chainFrom_update (thr : Nat → Thread) (u : Nat) (X : Thread)
    (hd0 : X.donating_to = (thr u).donating_to) :
    ∀ (rest : List Nat) (r : Nat), ChainFrom thr r rest → u ∉ rest →
      ChainFrom (updThread thr u X) r rest := by
  intro rest
  induction rest with
  | nil => intro r _ _; trivial
  | cons next rest2 ih =>
    intro r hc hu
    obtain ⟨h1, h2, h3⟩ := hc
    have hun : u ≠ next := fun hc2 => hu (by rw [hc2]; exact List.mem_cons_self next rest2)
    refine ⟨?_, ?_, ?_⟩
    · by_cases hr : r = u
      · rw [hr, updThread_same, hd0, ← hr]
        exact h1
      · rw [updThread_other _ _ _ _ hr]
        exact h1
    · rw [updThread_other _ _ _ _ (Ne.symm hun)]
      exact h2
    · exact ih next h3 (fun hx => hu (List.mem_cons_of_mem next hx))

theorem chainFrom_update_untouched (thr : Nat → Thread) (u : Nat) (X : Thread) :
    ∀ (rest : List Nat) (r : Nat), ChainFrom thr r rest → u ≠ r → u ∉ rest →
      ChainFrom (updThread thr u X) r rest := by
  intro rest
  induction rest with
  | nil => intro r _ _ _; trivial
  | cons next rest2 ih =>
    intro r hc hur hu
    obtain ⟨h1, h2, h3⟩ := hc
    have hun : u ≠ next := fun hc2 => hu (by rw [hc2]; exact List.mem_cons_self next rest2)
    refine ⟨?_, ?_, ?_⟩
    · rw [updThread_other _ _ _ _ (Ne.symm hur)]
      exact h1
    · rw [updThread_other _ _ _ _ (Ne.symm hun)]
      exact h2
    · exact ih next h3 hun (fun hx => hu (List.mem_cons_of_mem next hx))

theorem donate_thr_chain (s : KState) (cur l h0 : Nat) (rest : List Nat)
    (hc : ChainFrom s.threads h0 rest) (hh : h0 ∉ rest)
    (hcur1 : cur ≠ h0) (hcur2 : cur ∉ rest) :
    ChainFrom (donate_thr s cur l h0) h0 rest := by
  refine chainFrom_update_untouched _ cur _ rest h0 ?_ hcur1 hcur2
  exact chainFrom_update s.threads h0
    (Thread.mk (s.threads h0).priority
      (donation_insert_ordered
        (Donation.mk (thread_get_priority (s.threads cur)) cur l)
        (s.threads h0).donations)
      (s.threads h0).donating_to (s.threads h0).held_locks)
    rfl rest h0 hc hh

theorem chain_walk_covers (amt : Int) :
    ∀ (rest : List Nat) (fuel : Nat) (thr : Nat → Thread) (r : Nat),
      AllSorted thr → ChainFrom thr r rest → (r :: rest).Nodup →
      rest.length ≤ fuel →
      ∀ x ∈ rest, amt ≤ thread_get_priority (chain_walk amt fuel thr r x) := by
  intro rest
  induction rest with
  | nil => intro fuel thr r _ _ _ _ x hx; simp at hx
  | cons next rest2 ih =>
    intro fuel thr r hs hc hnd hlen x hx
    obtain ⟨h1, h2, h3⟩ := hc
    rcases fuel with _ | fuel
    · simp at hlen
    unfold chain_walk
    simp only [h1]
    rcases hf : find_donation_by_donor (thr next).donations r with _ | ex
    · rw [hf] at h2
      simp at h2
    · simp only [hf]
      have hnd2 : (next :: rest2).Nodup := (List.nodup_cons.mp hnd).2
      have hnextrest : next ∉ rest2 := (List.nodup_cons.mp hnd2).1
      have hlen2 : rest2.length ≤ fuel := by
        simp only [List.length_cons] at hlen
        omega
      by_cases hex : ex.donated_priority < amt
      · simp only [hex, if_true]
        have hs2 : AllSorted
            (updThread thr next (raise_and_sort r amt (thr next))) := by
          intro t
          by_cases ht : t = next
          · rw [ht, updThread_same]
            exact list_sort_donations_sorted _
          · rw [updThread_other _ _ _ _ ht]
            exact hs t
        have hpri : amt ≤ thread_get_priority
            (updThread thr next (raise_and_sort r amt (thr next)) next) := by
          rw [updThread_same]
          rw [thread_get_priority_eq_max (list_sort_donations_sorted _)]
          obtain ⟨d2, hd2, hamt⟩ := raise_donation_mem amt hf
          have hd3 : d2 ∈ (raise_and_sort r amt (thr next)).donations :=
            (list_sort_donations_perm _).mem_iff.mpr hd2
          have h4 := donation_le_max
            (raise_and_sort r amt (thr next)).priority hd3
          rw [hamt] at h4
          exact h4
        have hchain2 : ChainFrom
            (updThread thr next (raise_and_sort r amt (thr next))) next rest2 :=
          chainFrom_update thr next (raise_and_sort r amt (thr next)) rfl
            rest2 next h3 hnextrest
        rcases List.mem_cons.mp hx with hxe | hx2
        · rw [hxe]
          exact le_trans hpri (chain_walk_pri_mono amt fuel _ next hs2 next)
        · exact ih fuel _ next hs2 hchain2 hnd2 hlen2 x hx2
      · simp only [hex, if_false]
        have hexmem : ex ∈ (thr next).donations :=
          List.mem_of_find?_eq_some hf
        have hpri : amt ≤ thread_get_priority (thr next) := by
          rw [thread_get_priority_eq_max (hs next)]
          have h4 := donation_le_max (thr next).priority hexmem
          omega
        rcases List.mem_cons.mp hx with hxe | hx2
        · rw [hxe]
          exact le_trans hpri (chain_walk_pri_mono amt fuel thr next hs next)
        · exact ih fuel thr next hs h3 hnd2 hlen2 x hx2

/-- Claim C3: for every chain of threads each blocked acquiring a lock held
by the next, after a new thread runs the donation phase of lock_acquire at
the head of the chain, every thread in the chain (the holder and all
threads it transitively donates to) reports an effective priority at least
equal to the new donor's effective priority at donation time. -/
theorem lock_acquire_chain_donation (s : KState) (cur l h0 : Nat)
    (rest : List Nat) (fuel : Nat)
    (hholder : (s.locks l).holder = some h0)
    (hs : AllSorted s.threads)
    (hchain : ChainFrom s.threads h0 rest)
    (hnd : (h0 :: rest).Nodup)
    (hcur : cur ∉ h0 :: rest)
    (hfuel : rest.length ≤ fuel) :
    ∀ x ∈ h0 :: rest,
      thread_get_priority (s.threads cur) ≤
        thread_get_priority ((lock_acquire_donate s cur l fuel).threads x) := by
  have hcur1 : cur ≠ h0 :=
    fun hc => hcur (by rw [hc]; exact List.mem_cons_self h0 rest)
  have hcur2 : cur ∉ rest := fun hx => hcur (List.mem_cons_of_mem h0 hx)
  have hh0 : h0 ∉ rest := (List.nodup_cons.mp hnd).1
  have hds : AllSorted (donate_thr s cur l h0) :=
    donate_thr_sorted s cur l h0 hs
  have hchain2 : ChainFrom (donate_thr s cur l h0) h0 rest :=
    donate_thr_chain s cur l h0 rest hchain hh0 hcur1 hcur2
  unfold lock_acquire_donate
  simp only [hholder]
  intro x hx
  rcases List.mem_cons.mp hx with hxe | hx2
  · rw [hxe]
    refine le_trans (donate_thr_holder_pri s cur l h0 hs) ?_
    exact chain_walk_pri_mono _ fuel (donate_thr s cur l h0) h0 hds h0
  · exact chain_walk_covers _ rest fuel (donate_thr s cur l h0) h0 hds
      hchain2 hnd hfuel x hx2

/-- Witness for Claim C3 on the running example of design_doc.md: after H
(id 3, priority 60) donates through lock 10 held by M (id 2) which is
blocked on lock 11 held by L (id 1), both M and L report effective
priority at least 60 (and exactly 60, checked by evaluation). -/
theorem lock_acquire_chain_donation_witness :
    ((exampleState.locks 10).holder = some 2 ∧
     AllSorted exampleState.threads ∧
     ChainFrom exampleState.threads 2 [1] ∧
     ([2, 1] : List Nat).Nodup ∧ (3 : Nat) ∉ [2, 1] ∧
     ([1] : List Nat).length ≤ 5) ∧
    (∀ x ∈ [2, 1],
      thread_get_priority (exampleState.threads 3) ≤
        thread_get_priority ((lock_acquire_donate exampleState 3 10 5).threads x)) ∧
    thread_get_priority ((lock_acquire_donate exampleState 3 10 5).threads 2) = 60 ∧
    thread_get_priority ((lock_acquire_donate exampleState 3 10 5).threads 1) = 60 :=
  ⟨⟨by decide, exampleThreads_sorted, by decide, by decide, by decide,
    by decide⟩,
   lock_acquire_chain_donation exampleState 3 10 2 [1] 5 (by decide)
     exampleThreads_sorted (by decide) (by decide) (by decide) (by decide),
   by decide, by decide⟩

/-! ## Single-wait-state invariant (scheduler-wide transition system)

Modelled from the spec: threads/thread.c and threads/synch.c are not under
src/. The spec's open question (section 9) requires that with the shared
`thread->elem` design a thread is never a member of more than one
waiters/ready list at once. The system state below carries the ready queue
and the waiters lists of finitely many semaphores and condition variables;
the operations are spec section 4.3/4.4 transitions. Priorities are
supplied by an external map since only membership matters here. -/

/-- Modelled from the spec: the idle thread (spec section 4.3) runs when the
ready queue is empty and never appears in any queue. -/
def idle_tid : Nat := 0

structure Sys where
  running : Nat
  ready : List Nat
  semaW : List (List Nat)
  condW : List (List Nat)
deriving DecidableEq

def updAt : Nat → List Nat → List (List Nat) → List (List Nat)
  | _, _, [] => []
  | 0, v, _ :: tl => v :: tl
  | Nat.succ n, v, hl :: tl => hl :: updAt n v tl

/-- Total number of occurrences of thread t across a family of lists. -/
def occW (t : Nat) (xs : List (List Nat)) : Nat :=
  (xs.map (fun l => l.count t)).sum

/-- Total number of occurrences of thread t across the ready queue and all
waiters lists. -/
def occ (t : Nat) (s : Sys) : Nat :=
  s.ready.count t + occW t s.semaW + occW t s.condW

/-- The single-wait-state invariant: every thread is a member of at most one
of the ready queue, a semaphore's waiters list, or a condition variable's
waiters list (and at most once in it); the running thread and the idle
thread are in no list at all. -/
def WaitInv (s : Sys) : Prop :=
  (∀ t : Nat, occ t s ≤ 1) ∧ occ s.running s = 0 ∧ occ idle_tid s = 0

theorem occW_cons (t : Nat) (l : List Nat) (ls : List (List Nat)) :
    occW t (l :: ls) = l.count t + occW t ls := by
  simp [occW]

theorem updAt_occW (t : Nat) :
    ∀ (xs : List (List Nat)) (i : Nat) (v : List Nat), i < xs.length →
      occW t (updAt i v xs) + (xs.getD i []).count t =
        occW t xs + v.count t := by
  intro xs
  induction xs with
  | nil => intro i v h; simp at h
  | cons hl tl ih =>
    intro i v h
    cases i with
    | zero =>
      show occW t (v :: tl) + ((hl :: tl).getD 0 []).count t = _
      rw [occW_cons, occW_cons, List.getD_cons_zero]
      omega
    | succ n =>
      have h2 : n < tl.length := by simpa using h
      have h3 := ih n v h2
      show occW t (hl :: updAt n v tl) + ((hl :: tl).getD (n + 1) []).count t = _
      rw [occW_cons, occW_cons, List.getD_cons_succ]
      omega

/-- Modelled from the spec: the dispatch step (spec section 4.3) selects the
highest-priority READY thread as the new running thread, or the idle thread
when the ready queue is empty. -/
def dispatch (p : Nat → Int) (s : Sys) : Sys :=
  match pop_highest p s.ready with
  | some (w, rest) => { s with running := w, ready := rest }
  | none => { s with running := idle_tid }

/-- Modelled from the spec: RUNNING to READY on yield (spec section 4.3);
the yielding thread re-enters the ready queue before dispatch selects. -/
def opYield (p : Nat → Int) (s : Sys) : Sys :=
  dispatch p { s with ready := insert_desc p s.running s.ready }

/-- Modelled from the spec: RUNNING to BLOCKED inside semaphore-down (spec
section 4.4): the running thread enters the semaphore's waiters list and
the scheduler dispatches a new thread. -/
def opBlockSema (p : Nat → Int) (i : Nat) (s : Sys) : Sys :=
  let w2 := updAt i (insert_desc p s.running (s.semaW.getD i [])) s.semaW
  dispatch p { s with semaW := w2 }

/-- Modelled from the spec: BLOCKED to READY inside semaphore-up (spec
section 4.4): the highest-priority waiter moves to the ready queue. -/
def opSemaUp (p : Nat → Int) (i : Nat) (s : Sys) : Sys :=
  match pop_highest p (s.semaW.getD i []) with
  | some (w, rest) =>
    { s with semaW := updAt i rest s.semaW, ready := insert_desc p w s.ready }
  | none => s

/-- Modelled from the spec: RUNNING to BLOCKED inside condition-wait. -/
def opBlockCond (p : Nat → Int) (j : Nat) (s : Sys) : Sys :=
  let w2 := updAt j (insert_desc p s.running (s.condW.getD j [])) s.condW
  dispatch p { s with condW := w2 }

/-- Modelled from the spec: condition-signal wakes the single
highest-priority waiter, inserting it into the ready queue. -/
def opCondSignal (p : Nat → Int) (j : Nat) (s : Sys) : Sys :=
  match pop_highest p (s.condW.getD j []) with
  | some (w, rest) =>
    { s with condW := updAt j rest s.condW, ready := insert_desc p w s.ready }
  | none => s

/-- Modelled from the spec: thread creation / thread_unblock inserts a
thread that is in no queue into the ready queue (spec section 4.3). -/
def opUnblock (p : Nat → Int) (t0 : Nat) (s : Sys) : Sys :=
  { s with ready := insert_desc p t0 s.ready }

/-- Modelled from the spec: the operations of the scheduler core and the
synchronization primitives that move threads between the ready queue and
waiters lists. Blocking requires a real (non-idle) running thread; a newly
unblocked/created thread is in no queue. -/
inductive Step (p : Nat → Int) (s : Sys) : Sys → Prop where
  | yield (h : s.running ≠ idle_tid) : Step p s (opYield p s)
  | blockSema (i : Nat) (h : s.running ≠ idle_tid) :
      Step p s (opBlockSema p i s)
  | semaUp (i : Nat) : Step p s (opSemaUp p i s)
  | blockCond (j : Nat) (h : s.running ≠ idle_tid) :
      Step p s (opBlockCond p j s)
  | condSignal (j : Nat) : Step p s (opCondSignal p j s)
  | unblock (t0 : Nat) (h1 : t0 ≠ idle_tid) (h2 : t0 ≠ s.running)
      (h3 : occ t0 s = 0) : Step p s (opUnblock p t0 s)

theorem waitInv_of_shift {s s2 : Sys} (w : Nat)
    (hshift : ∀ t : Nat, occ t s2 + (if t = w then 1 else 0) ≤
      occ t s + (if t = s.running then 1 else 0))
    (hrun2 : s2.running = w) (hri : s.running ≠ idle_tid)
    (hwi : w ≠ idle_tid) (hinv : WaitInv s) : WaitInv s2 := by
  obtain ⟨hA, hB, hC⟩ := hinv
  refine ⟨?_, ?_, ?_⟩
  · intro t
    have h1 := hshift t
    by_cases htr : t = s.running
    · rw [htr] at h1 ⊢
      rw [if_pos rfl] at h1
      rw [hB] at h1
      omega
    · rw [if_neg htr] at h1
      have h2 := hA t
      omega
  · rw [hrun2]
    have h1 := hshift w
    rw [if_pos rfl] at h1
    by_cases hwr : w = s.running
    · rw [hwr] at h1 ⊢
      rw [if_pos rfl] at h1
      rw [hB] at h1
      omega
    · rw [if_neg hwr] at h1
      have h2 := hA w
      omega
  · have h1 := hshift idle_tid
    rw [if_neg (fun hc => hwi hc.symm), if_neg (fun hc => hri hc.symm),
        hC] at h1
    omega

theorem waitInv_of_shift_idle {s s2 : Sys}
    (hshift : ∀ t : Nat, occ t s2 ≤
      occ t s + (if t = s.running then 1 else 0))
    (hrun2 : s2.running = idle_tid) (hri : s.running ≠ idle_tid)
    (hinv : WaitInv s) : WaitInv s2 := by
  obtain ⟨hA, hB, hC⟩ := hinv
  have hidle : occ idle_tid s2 = 0 := by
    have h1 := hshift idle_tid
    rw [if_neg (fun hc => hri hc.symm), hC] at h1
    omega
  refine ⟨?_, ?_, hidle⟩
  · intro t
    have h1 := hshift t
    by_cases htr : t = s.running
    · rw [htr] at h1 ⊢
      rw [if_pos rfl] at h1
      rw [hB] at h1
      omega
    · rw [if_neg htr] at h1
      have h2 := hA t
      omega
  · rw [hrun2]
    exact hidle

theorem waitInv_of_occ_eq {s s2 : Sys}
    (hocc : ∀ t : Nat, occ t s2 = occ t s)
    (hrun2 : s2.running = s.running) (hinv : WaitInv s) : WaitInv s2 := by
  obtain ⟨hA, hB, hC⟩ := hinv
  refine ⟨fun t => by rw [hocc t]; exact hA t, ?_, by rw [hocc]; exact hC⟩
  rw [hrun2, hocc]
  exact hB

theorem waitInv_of_fresh {s s2 : Sys} (t0 : Nat)
    (hocc : ∀ t : Nat, occ t s2 = occ t s + (if t = t0 then 1 else 0))
    (hrun2 : s2.running = s.running) (h1 : t0 ≠ idle_tid)
    (h2 : t0 ≠ s.running) (h3 : occ t0 s = 0) (hinv : WaitInv s) :
    WaitInv s2 := by
  obtain ⟨hA, hB, hC⟩ := hinv
  refine ⟨?_, ?_, ?_⟩
  · intro t
    have h4 := hocc t
    by_cases ht : t = t0
    · rw [ht] at h4 ⊢
      rw [if_pos rfl, h3] at h4
      omega
    · rw [if_neg ht] at h4
      have h5 := hA t
      omega
  · rw [hrun2, hocc, if_neg (fun hc => h2 hc.symm)]
    omega
  · rw [hocc, if_neg (fun hc => h1 hc.symm)]
    omega

theorem count_insert_desc (p : Nat → Int) (x : Nat) (l : List Nat) (t : Nat) :
    (insert_desc p x l).count t = l.count t + (if t = x then 1 else 0) := by
  rw [(insert_desc_perm p x l).count_eq t, List.count_cons]
  simp only [beq_iff_eq]
  by_cases hx : t = x
  · rw [hx]
  · rw [if_neg (fun h => hx h.symm), if_neg hx]

theorem count_pop_highest (p : Nat → Int) {l : List Nat} {w : Nat}
    {rest : List Nat} (h : pop_highest p l = some (w, rest)) (t : Nat) :
    l.count t = rest.count t + (if t = w then 1 else 0) := by
  rw [(pop_highest_perm p h).count_eq t, List.count_cons]
  simp only [beq_iff_eq]
  by_cases hx : t = w
  · rw [hx]
  · rw [if_neg (fun h2 => hx h2.symm), if_neg hx]

theorem updAt_ge_length :
    ∀ (xs : List (List Nat)) (i : Nat) (v : List Nat),
      xs.length ≤ i → updAt i v xs = xs := by
  intro xs
  induction xs with
  | nil => intro i v _; cases i <;> rfl
  | cons hl tl ih =>
    intro i v h
    cases i with
    | zero => simp at h
    | succ n =>
      have h2 : tl.length ≤ n := by simpa using h
      show hl :: updAt n v tl = hl :: tl
      rw [ih n v h2]

theorem ready_not_idle {s : Sys} (hinv : WaitInv s) {w : Nat}
    (hw : w ∈ s.ready) : w ≠ idle_tid := by
  intro hc
  have hcount : s.ready.count idle_tid = 0 := by
    have h0 := hinv.2.2
    simp only [occ] at h0
    omega
  rw [hc] at hw
  exact (List.count_eq_zero.mp hcount) hw

theorem dispatch_cases (p : Nat → Int) (run : Nat) (rdy : List Nat)
    (sw cw : List (List Nat)) :
    (∃ w rest, pop_highest p rdy = some (w, rest) ∧
      dispatch p (Sys.mk run rdy sw cw) = Sys.mk w rest sw cw) ∨
    (pop_highest p rdy = none ∧
      dispatch p (Sys.mk run rdy sw cw) = Sys.mk idle_tid rdy sw cw) := by
  rcases hpop : pop_highest p rdy with _ | ⟨w, rest⟩
  · right
    refine ⟨rfl, ?_⟩
    simp [dispatch, hpop]
  · left
    refine ⟨w, rest, rfl, ?_⟩
    simp [dispatch, hpop]

theorem opYield_inv (p : Nat → Int) (s : Sys) (h : s.running ≠ idle_tid)
    (hinv : WaitInv s) : WaitInv (opYield p s) := by
  show WaitInv (dispatch p
    (Sys.mk s.running (insert_desc p s.running s.ready) s.semaW s.condW))
  rcases dispatch_cases p s.running (insert_desc p s.running s.ready)
      s.semaW s.condW with ⟨w, rest, hpop, heq⟩ | ⟨hpop, heq⟩
  · rw [heq]
    have hw : w ∈ insert_desc p s.running s.ready :=
      (pop_highest_perm p hpop).symm.mem_iff.mp (List.mem_cons_self w rest)
    have hwi : w ≠ idle_tid := by
      rcases (mem_insert_desc p).mp hw with hw2 | hw2
      · rw [hw2]; exact h
      · exact ready_not_idle hinv hw2
    refine waitInv_of_shift w ?_ ?_ h hwi hinv
    · intro t
      have e1 := count_insert_desc p s.running s.ready t
      have e2 := count_pop_highest p hpop t
      simp only [occ]
      omega
    · rfl
  · exfalso
    have h1 := (pop_highest_none p _).mp hpop
    have h2 := insert_desc_perm p s.running s.ready
    rw [h1] at h2
    exact absurd (List.Perm.eq_nil h2.symm) (List.cons_ne_nil _ _)

theorem opBlockSema_inv (p : Nat → Int) (i : Nat) (s : Sys)
    (h : s.running ≠ idle_tid) (hinv : WaitInv s) :
    WaitInv (opBlockSema p i s) := by
  show WaitInv (dispatch p (Sys.mk s.running s.ready
    (updAt i (insert_desc p s.running (s.semaW.getD i [])) s.semaW) s.condW))
  rcases dispatch_cases p s.running s.ready
      (updAt i (insert_desc p s.running (s.semaW.getD i [])) s.semaW) s.condW
    with ⟨w, rest, hpop, heq⟩ | ⟨hpop, heq⟩
  · rw [heq]
    have hw : w ∈ s.ready :=
      (pop_highest_perm p hpop).symm.mem_iff.mp (List.mem_cons_self w rest)
    refine waitInv_of_shift w ?_ ?_ h (ready_not_idle hinv hw) hinv
    · intro t
      have e2 := count_pop_highest p hpop t
      by_cases hi : i < s.semaW.length
      · have e3 := updAt_occW t s.semaW i
          (insert_desc p s.running (s.semaW.getD i [])) hi
        have e4 := count_insert_desc p s.running (s.semaW.getD i []) t
        simp only [occ]
        omega
      · have e5 : updAt i (insert_desc p s.running (s.semaW.getD i []))
            s.semaW = s.semaW := updAt_ge_length _ _ _ (le_of_not_lt hi)
        simp only [occ, e5]
        omega
    · rfl
  · rw [heq]
    refine waitInv_of_shift_idle ?_ ?_ h hinv
    · intro t
      by_cases hi : i < s.semaW.length
      · have e3 := updAt_occW t s.semaW i
          (insert_desc p s.running (s.semaW.getD i [])) hi
        have e4 := count_insert_desc p s.running (s.semaW.getD i []) t
        simp only [occ]
        omega
      · have e5 : updAt i (insert_desc p s.running (s.semaW.getD i []))
            s.semaW = s.semaW := updAt_ge_length _ _ _ (le_of_not_lt hi)
        simp only [occ, e5]
        omega
    · rfl

theorem opSemaUp_inv (p : Nat → Int) (i : Nat) (s : Sys)
    (hinv : WaitInv s) : WaitInv (opSemaUp p i s) := by
  unfold opSemaUp
  rcases hpop : pop_highest p (s.semaW.getD i []) with _ | ⟨w, rest⟩
  · exact hinv
  · refine waitInv_of_occ_eq ?_ ?_ hinv
    · intro t
      have hi : i < s.semaW.length := by
        by_contra hi2
        have h6 : s.semaW.getD i [] = [] :=
          List.getD_eq_default _ _ (le_of_not_lt hi2)
        rw [h6] at hpop
        simp [pop_highest] at hpop
      have e1 := updAt_occW t s.semaW i rest hi
      have e2 := count_pop_highest p hpop t
      have e3 := count_insert_desc p w s.ready t
      simp only [occ]
      omega
    · rfl

theorem opBlockCond_inv (p : Nat → Int) (j : Nat) (s : Sys)
    (h : s.running ≠ idle_tid) (hinv : WaitInv s) :
    WaitInv (opBlockCond p j s) := by
  show WaitInv (dispatch p (Sys.mk s.running s.ready s.semaW
    (updAt j (insert_desc p s.running (s.condW.getD j [])) s.condW)))
  rcases dispatch_cases p s.running s.ready s.semaW
      (updAt j (insert_desc p s.running (s.condW.getD j [])) s.condW)
    with ⟨w, rest, hpop, heq⟩ | ⟨hpop, heq⟩
  · rw [heq]
    have hw : w ∈ s.ready :=
      (pop_highest_perm p hpop).symm.mem_iff.mp (List.mem_cons_self w rest)
    refine waitInv_of_shift w ?_ ?_ h (ready_not_idle hinv hw) hinv
    · intro t
      have e2 := count_pop_highest p hpop t
      by_cases hj : j < s.condW.length
      · have e3 := updAt_occW t s.condW j
          (insert_desc p s.running (s.condW.getD j [])) hj
        have e4 := count_insert_desc p s.running (s.condW.getD j []) t
        simp only [occ]
        omega
      · have e5 : updAt j (insert_desc p s.running (s.condW.getD j []))
            s.condW = s.condW := updAt_ge_length _ _ _ (le_of_not_lt hj)
        simp only [occ, e5]
        omega
    · rfl
  · rw [heq]
    refine waitInv_of_shift_idle ?_ ?_ h hinv
    · intro t
      by_cases hj : j < s.condW.length
      · have e3 := updAt_occW t s.condW j
          (insert_desc p s.running (s.condW.getD j [])) hj
        have e4 := count_insert_desc p s.running (s.condW.getD j []) t
        simp only [occ]
        omega
      · have e5 : updAt j (insert_desc p s.running (s.condW.getD j []))
            s.condW = s.condW := updAt_ge_length _ _ _ (le_of_not_lt hj)
        simp only [occ, e5]
        omega
    · rfl

theorem opCondSignal_inv (p : Nat → Int) (j : Nat) (s : Sys)
    (hinv : WaitInv s) : WaitInv (opCondSignal p j s) := by
  unfold opCondSignal
  rcases hpop : pop_highest p (s.condW.getD j []) with _ | ⟨w, rest⟩
  · exact hinv
  · refine waitInv_of_occ_eq ?_ ?_ hinv
    · intro t
      have hj : j < s.condW.length := by
        by_contra hj2
        have h6 : s.condW.getD j [] = [] :=
          List.getD_eq_default _ _ (le_of_not_lt hj2)
        rw [h6] at hpop
        simp [pop_highest] at hpop
      have e1 := updAt_occW t s.condW j rest hj
      have e2 := count_pop_highest p hpop t
      have e3 := count_insert_desc p w s.ready t
      simp only [occ]
      omega
    · rfl

theorem opUnblock_inv (p : Nat → Int) (t0 : Nat) (s : Sys)
    (h1 : t0 ≠ idle_tid) (h2 : t0 ≠ s.running) (h3 : occ t0 s = 0)
    (hinv : WaitInv s) : WaitInv (opUnblock p t0 s) := by
  refine waitInv_of_fresh t0 ?_ ?_ h1 h2 h3 hinv
  · intro t
    have e := count_insert_desc p t0 s.ready t
    simp only [occ, opUnblock]
    omega
  · rfl

/-- Claim C8: every operation of the scheduler core and the synchronization
primitives preserves the single-wait-state invariant: at any time a thread
is a member of at most one of the ready queue, a semaphore's waiters list,
or a condition variable's waiters list. -/
theorem step_preserves_waitInv (p : Nat → Int) (s s2 : Sys)
    (hinv : WaitInv s) (hstep : Step p s s2) : WaitInv s2 := by
  cases hstep with
  | yield h => exact opYield_inv p s h hinv
  | blockSema i h => exact opBlockSema_inv p i s h hinv
  | semaUp i => exact opSemaUp_inv p i s hinv
  | blockCond j h => exact opBlockCond_inv p j s h hinv
  | condSignal j => exact opCondSignal_inv p j s hinv
  | unblock t0 h1 h2 h3 => exact opUnblock_inv p t0 s h1 h2 h3 hinv

def exampleSys : Sys := Sys.mk 1 [2] [[3]] [[]]

theorem exampleSys_inv : WaitInv exampleSys := by
  refine ⟨?_, by decide, by decide⟩
  intro t
  by_cases h2 : t = 2
  · rw [h2]; decide
  · by_cases h3 : t = 3
    · rw [h3]; decide
    · simp [occ, occW, exampleSys, List.count_cons, beq_iff_eq, h2, h3]

/-- Witness for Claim C8: a concrete state (thread 1 running, thread 2
ready, thread 3 waiting on semaphore 0) satisfies the invariant, and the
invariant is preserved across a yield step. -/
theorem step_preserves_waitInv_witness :
    WaitInv exampleSys ∧ WaitInv (opYield (fun _ => 31) exampleSys) :=
  ⟨exampleSys_inv,
   step_preserves_waitInv (fun _ => 31) exampleSys
     (opYield (fun _ => 31) exampleSys) exampleSys_inv
     (Step.yield (by decide))⟩

/-! ## Syscall argument validation (embedded from src/src/userprog/syscall.c) -/

def PHYS_BASE : Nat := 3221225472

def PTR_MOD : Nat := 4294967296

/-- threads/vaddr.h is_user_vaddr: a user virtual address is strictly below
PHYS_BASE. -/
def is_user_vaddr (a : Nat) : Bool := decide (a < PHYS_BASE)

/-- userprog/syscall.c validate_buffer_in_user_region: computes
delta = PHYS_BASE - buffer in wrap-around pointer arithmetic and passes iff
the buffer is a user address and its length does not exceed delta (a
failing check calls syscall_exit(-1) in the caller). -/
def validate_buffer_in_user_region (buffer len : Nat) : Bool :=
  let delta := (PHYS_BASE + PTR_MOD - buffer) % PTR_MOD
  is_user_vaddr buffer && decide (len ≤ delta)

/-- lib/string.c strnlen over the byte memory, bounded by maxlen. -/
def strnlen (memB : Nat → Nat) : Nat → Nat → Nat
  | _, 0 => 0
  | a, Nat.succ fuel => if memB a = 0 then 0 else strnlen memB (a + 1) fuel + 1

/-- userprog/syscall.c validate_string_in_user_region: the string must start
below PHYS_BASE and reach a terminator before PHYS_BASE. -/
def validate_string_in_user_region (memB : Nat → Nat) (sa : Nat) : Bool :=
  let delta := (PHYS_BASE + PTR_MOD - sa) % PTR_MOD
  is_user_vaddr sa && decide (strnlen memB sa delta ≠ delta)

/-- Modelled from the spec: lib/syscall-nr.h is not under src/; the values
follow the standard Pintos header the code includes. The validation claims
do not depend on the concrete numbering, only on the numbers being
distinct. -/
def SYS_HALT : Nat := 0

def SYS_EXIT : Nat := 1

def SYS_EXEC : Nat := 2

def SYS_WAIT : Nat := 3

def SYS_CREATE : Nat := 4

def SYS_REMOVE : Nat := 5

def SYS_OPEN : Nat := 6

def SYS_FILESIZE : Nat := 7

def SYS_READ : Nat := 8

def SYS_WRITE : Nat := 9

def SYS_CLOSE : Nat := 12

def SYS_PRACTICE : Nat := 13

/-- Outcome of one syscall_handler invocation: whether syscall_exit was
called (with which status, after printing the process name and status),
the value stored to eax if any, the addresses of the user-stack argument
words the handler read (in order), and whether the machine halted. -/
structure SyscallOutcome where
  exited : Option Int
  eax : Option Nat
  reads : List Nat
  halted : Bool
deriving DecidableEq

/-- Reinterpretation of a 32-bit word as a signed int, as the handler's
(int) casts do. -/
def asInt32 (n : Nat) : Int :=
  if n < 2147483648 then (n : Int) else (n : Int) - 4294967296

/-- userprog/syscall.c syscall_handler: validate the syscall-number word at
esp, dispatch on it, validating each consumed argument word (and, for
read/write, the user buffer; for the string syscalls, the string) before
use; any failed validation runs syscall_exit(-1). mem is the 32-bit word
memory (loads reduced mod 2^32), memB the byte memory read by strnlen, and
extRes abstracts the return values of the process/filesystem layer the
handler stores to eax. -/
def syscall_handler (mem memB : Nat → Nat) (extRes : Nat → Nat) (esp : Nat) :
    SyscallOutcome :=
  if validate_buffer_in_user_region esp 4 = false then
    SyscallOutcome.mk (some (-1)) none [] false
  else
    let n := mem esp % PTR_MOD
    let a1 := (esp + 4) % PTR_MOD
    let a2 := (esp + 8) % PTR_MOD
    let a3 := (esp + 12) % PTR_MOD
    if n = SYS_EXIT then
      if validate_buffer_in_user_region a1 4 = false then
        SyscallOutcome.mk (some (-1)) none [esp] false
      else
        SyscallOutcome.mk (some (asInt32 (mem a1 % PTR_MOD))) none [esp, a1]
          false
    else if n = SYS_WRITE then
      if validate_buffer_in_user_region a1 12 = false then
        SyscallOutcome.mk (some (-1)) none [esp] false
      else if validate_buffer_in_user_region (mem a2 % PTR_MOD)
          (mem a3 % PTR_MOD) = false then
        SyscallOutcome.mk (some (-1)) none [esp, a2, a3] false
      else SyscallOutcome.mk none (some (extRes SYS_WRITE)) [esp, a1, a2, a3]
        false
    else if n = SYS_PRACTICE then
      if validate_buffer_in_user_region a1 4 = false then
        SyscallOutcome.mk (some (-1)) none [esp] false
      else
        SyscallOutcome.mk none (some ((mem a1 % PTR_MOD + 1) % PTR_MOD))
          [esp, a1] false
    else if n = SYS_HALT then
      SyscallOutcome.mk none none [esp] true
    else if n = SYS_EXEC then
      if validate_buffer_in_user_region a1 4 = false then
        SyscallOutcome.mk (some (-1)) none [esp] false
      else if validate_string_in_user_region memB (mem a1 % PTR_MOD) = false
        then SyscallOutcome.mk (some (-1)) none [esp, a1] false
      else SyscallOutcome.mk none (some (extRes SYS_EXEC)) [esp, a1] false
    else if n = SYS_WAIT then
      if validate_buffer_in_user_region a1 4 = false then
        SyscallOutcome.mk (some (-1)) none [esp] false
      else SyscallOutcome.mk none (some (extRes SYS_WAIT)) [esp, a1] false
    else if n = SYS_CREATE then
      if validate_buffer_in_user_region a1 8 = false then
        SyscallOutcome.mk (some (-1)) none [esp] false
      else if validate_string_in_user_region memB (mem a1 % PTR_MOD) = false
        then SyscallOutcome.mk (some (-1)) none [esp, a1] false
      else SyscallOutcome.mk none (some (extRes SYS_CREATE)) [esp, a1, a2]
        false
    else if n = SYS_REMOVE then
      if validate_buffer_in_user_region a1 4 = false then
        SyscallOutcome.mk (some (-1)) none [esp] false
      else if validate_string_in_user_region memB (mem a1 % PTR_MOD) = false
        then SyscallOutcome.mk (some (-1)) none [esp, a1] false
      else SyscallOutcome.mk none (some (extRes SYS_REMOVE)) [esp, a1] false
    else if n = SYS_OPEN then
      if validate_buffer_in_user_region a1 4 = false then
        SyscallOutcome.mk (some (-1)) none [esp] false
      else if validate_string_in_user_region memB (mem a1 % PTR_MOD) = false
        then SyscallOutcome.mk (some (-1)) none [esp, a1] false
      else SyscallOutcome.mk none (some (extRes SYS_OPEN)) [esp, a1] false
    else if n = SYS_FILESIZE then
      if validate_buffer_in_user_region a1 4 = false then
        SyscallOutcome.mk (some (-1)) none [esp] false
      else SyscallOutcome.mk none (some (extRes SYS_FILESIZE)) [esp, a1]
        false
    else if n = SYS_CLOSE then
      if validate_buffer_in_user_region a1 4 = false then
        SyscallOutcome.mk (some (-1)) none [esp] false
      else SyscallOutcome.mk none none [esp, a1] false
    else if n = SYS_READ then
      if validate_buffer_in_user_region a1 12 = false then
        SyscallOutcome.mk (some (-1)) none [esp] false
      else if validate_buffer_in_user_region (mem a2 % PTR_MOD)
          (mem a3 % PTR_MOD) = false then
        SyscallOutcome.mk (some (-1)) none [esp, a2, a3] false
      else SyscallOutcome.mk none (some (extRes SYS_READ)) [esp, a1, a2, a3]
        false
    else SyscallOutcome.mk none none [esp] false

theorem validate_buffer_iff (a n : Nat) :
    validate_buffer_in_user_region a n = true ↔
      a < PHYS_BASE ∧ a + n ≤ PHYS_BASE := by
  unfold validate_buffer_in_user_region is_user_vaddr
  simp only [Bool.and_eq_true, decide_eq_true_eq]
  unfold PHYS_BASE PTR_MOD
  constructor
  · intro h
    obtain ⟨h1, h2⟩ := h
    refine ⟨h1, ?_⟩
    omega
  · intro h
    obtain ⟨h1, h2⟩ := h
    refine ⟨h1, ?_⟩
    omega

theorem esp_bounds {esp : Nat}
    (h : validate_buffer_in_user_region esp 4 = true) :
    esp < PHYS_BASE ∧ esp + 4 ≤ PHYS_BASE := by
  rw [validate_buffer_iff] at h
  omega

theorem a1_bounds {esp n : Nat}
    (h : validate_buffer_in_user_region ((esp + 4) % PTR_MOD) n = true)
    (hn : 4 ≤ n) :
    (esp + 4) % PTR_MOD < PHYS_BASE ∧
      (esp + 4) % PTR_MOD + 4 ≤ PHYS_BASE := by
  rw [validate_buffer_iff] at h
  unfold PHYS_BASE PTR_MOD at *
  omega

theorem a2_bounds {esp n : Nat}
    (h : validate_buffer_in_user_region ((esp + 4) % PTR_MOD) n = true)
    (hn : 8 ≤ n) :
    (esp + 8) % PTR_MOD < PHYS_BASE ∧
      (esp + 8) % PTR_MOD + 4 ≤ PHYS_BASE := by
  rw [validate_buffer_iff] at h
  unfold PHYS_BASE PTR_MOD at *
  omega

theorem a3_bounds {esp n : Nat}
    (h : validate_buffer_in_user_region ((esp + 4) % PTR_MOD) n = true)
    (hn : 12 ≤ n) :
    (esp + 12) % PTR_MOD < PHYS_BASE ∧
      (esp + 12) % PTR_MOD + 4 ≤ PHYS_BASE := by
  rw [validate_buffer_iff] at h
  unfold PHYS_BASE PTR_MOD at *
  omega

theorem reads1 {esp : Nat}
    (h : validate_buffer_in_user_region esp 4 = true) :
    ∀ a ∈ ([esp] : List Nat), a < PHYS_BASE ∧ a + 4 ≤ PHYS_BASE := by
  intro a ha
  rw [List.mem_singleton] at ha
  rw [ha]
  exact esp_bounds h

theorem reads2 {esp n : Nat}
    (h : validate_buffer_in_user_region esp 4 = true)
    (h1 : validate_buffer_in_user_region ((esp + 4) % PTR_MOD) n = true)
    (hn : 4 ≤ n) :
    ∀ a ∈ ([esp, (esp + 4) % PTR_MOD] : List Nat),
      a < PHYS_BASE ∧ a + 4 ≤ PHYS_BASE := by
  intro a ha
  rcases List.mem_cons.mp ha with ha | ha
  · rw [ha]; exact esp_bounds h
  · rw [List.mem_singleton] at ha
    rw [ha]
    exact a1_bounds h1 hn

theorem reads3 {esp n : Nat}
    (h : validate_buffer_in_user_region esp 4 = true)
    (h1 : validate_buffer_in_user_region ((esp + 4) % PTR_MOD) n = true)
    (hn : 8 ≤ n) :
    ∀ a ∈ ([esp, (esp + 4) % PTR_MOD, (esp + 8) % PTR_MOD] : List Nat),
      a < PHYS_BASE ∧ a + 4 ≤ PHYS_BASE := by
  intro a ha
  rcases List.mem_cons.mp ha with ha | ha
  · rw [ha]; exact esp_bounds h
  rcases List.mem_cons.mp ha with ha | ha
  · rw [ha]; exact a1_bounds h1 (by omega)
  · rw [List.mem_singleton] at ha
    rw [ha]
    exact a2_bounds h1 hn

theorem reads23 {esp n : Nat}
    (h : validate_buffer_in_user_region esp 4 = true)
    (h1 : validate_buffer_in_user_region ((esp + 4) % PTR_MOD) n = true)
    (hn : 12 ≤ n) :
    ∀ a ∈ ([esp, (esp + 8) % PTR_MOD, (esp + 12) % PTR_MOD] : List Nat),
      a < PHYS_BASE ∧ a + 4 ≤ PHYS_BASE := by
  intro a ha
  rcases List.mem_cons.mp ha with ha | ha
  · rw [ha]; exact esp_bounds h
  rcases List.mem_cons.mp ha with ha | ha
  · rw [ha]; exact a2_bounds h1 (by omega)
  · rw [List.mem_singleton] at ha
    rw [ha]
    exact a3_bounds h1 hn

theorem reads4 {esp n : Nat}
    (h : validate_buffer_in_user_region esp 4 = true)
    (h1 : validate_buffer_in_user_region ((esp + 4) % PTR_MOD) n = true)
    (hn : 12 ≤ n) :
    ∀ a ∈ ([esp, (esp + 4) % PTR_MOD, (esp + 8) % PTR_MOD,
        (esp + 12) % PTR_MOD] : List Nat),
      a < PHYS_BASE ∧ a + 4 ≤ PHYS_BASE := by
  intro a ha
  rcases List.mem_cons.mp ha with ha | ha
  · rw [ha]; exact esp_bounds h
  rcases List.mem_cons.mp ha with ha | ha
  · rw [ha]; exact a1_bounds h1 (by omega)
  rcases List.mem_cons.mp ha with ha | ha
  · rw [ha]; exact a2_bounds h1 (by omega)
  · rw [List.mem_singleton] at ha
    rw [ha]
    exact a3_bounds h1 hn

theorem validate_mono {a n1 n2 : Nat} (h12 : n1 ≤ n2)
    (h : validate_buffer_in_user_region a n2 = true) :
    validate_buffer_in_user_region a n1 = true := by
  rw [validate_buffer_iff] at *
  omega


/-- Claim C10: for every system call dispatch the handler first checks that
the syscall-number word at the user stack pointer, and each argument word
it consumes, lies entirely below PHYS_BASE: every stack word the handler
reads has passed validation (so an offending address is never
dereferenced), a bad stack pointer terminates the process via
syscall_exit(-1) before anything is read, and a bad argument word
terminates the process via syscall_exit(-1) with only the (validated)
syscall-number word read. -/
theorem syscall_handler_validates (mem memB : Nat → Nat)
    (extRes : Nat → Nat) (esp : Nat) :
    (∀ a ∈ (syscall_handler mem memB extRes esp).reads,
      a < PHYS_BASE ∧ a + 4 ≤ PHYS_BASE) ∧
    (validate_buffer_in_user_region esp 4 = false →
      syscall_handler mem memB extRes esp =
        SyscallOutcome.mk (some (-1)) none [] false) ∧
    (validate_buffer_in_user_region esp 4 = true →
      validate_buffer_in_user_region ((esp + 4) % PTR_MOD) 4 = false →
      mem esp % PTR_MOD ∈ ([SYS_EXIT, SYS_WRITE, SYS_PRACTICE, SYS_EXEC,
        SYS_WAIT, SYS_CREATE, SYS_REMOVE, SYS_OPEN, SYS_FILESIZE, SYS_CLOSE,
        SYS_READ] : List Nat) →
      syscall_handler mem memB extRes esp =
        SyscallOutcome.mk (some (-1)) none [esp] false) := by
  refine ⟨?_, ?_, ?_⟩
  · by_cases h0 : validate_buffer_in_user_region esp 4 = false
    · have he : syscall_handler mem memB extRes esp =
          SyscallOutcome.mk (some (-1)) none [] false := by
        unfold syscall_handler
        rw [if_pos h0]
      rw [he]
      intro a ha
      simp at ha
    · have h0t : validate_buffer_in_user_region esp 4 = true := by
        simpa using h0
      unfold syscall_handler
      rw [if_neg h0]
      dsimp only
      by_cases hn1 : mem esp % PTR_MOD = SYS_EXIT
      · rw [if_pos hn1]
        by_cases hv : validate_buffer_in_user_region ((esp + 4) % PTR_MOD) 4
            = false
        · rw [if_pos hv]
          exact reads1 h0t
        · rw [if_neg hv]
          have hvt : validate_buffer_in_user_region ((esp + 4) % PTR_MOD) 4
              = true := by simpa using hv
          exact reads2 h0t hvt (by omega)
      · rw [if_neg hn1]
        by_cases hn2 : mem esp % PTR_MOD = SYS_WRITE
        · rw [if_pos hn2]
          by_cases hv : validate_buffer_in_user_region ((esp + 4) % PTR_MOD)
              12 = false
          · rw [if_pos hv]
            exact reads1 h0t
          · rw [if_neg hv]
            have hvt : validate_buffer_in_user_region ((esp + 4) % PTR_MOD)
                12 = true := by simpa using hv
            by_cases hb : validate_buffer_in_user_region
                (mem ((esp + 8) % PTR_MOD) % PTR_MOD)
                (mem ((esp + 12) % PTR_MOD) % PTR_MOD) = false
            · rw [if_pos hb]
              exact reads23 h0t hvt (by omega)
            · rw [if_neg hb]
              exact reads4 h0t hvt (by omega)
        · rw [if_neg hn2]
          by_cases hn3 : mem esp % PTR_MOD = SYS_PRACTICE
          · rw [if_pos hn3]
            by_cases hv : validate_buffer_in_user_region
                ((esp + 4) % PTR_MOD) 4 = false
            · rw [if_pos hv]
              exact reads1 h0t
            · rw [if_neg hv]
              have hvt : validate_buffer_in_user_region
                  ((esp + 4) % PTR_MOD) 4 = true := by simpa using hv
              exact reads2 h0t hvt (by omega)
          · rw [if_neg hn3]
            by_cases hn4 : mem esp % PTR_MOD = SYS_HALT
            · rw [if_pos hn4]
              exact reads1 h0t
            · rw [if_neg hn4]
              by_cases hn5 : mem esp % PTR_MOD = SYS_EXEC
              · rw [if_pos hn5]
                by_cases hv : validate_buffer_in_user_region
                    ((esp + 4) % PTR_MOD) 4 = false
                · rw [if_pos hv]
                  exact reads1 h0t
                · rw [if_neg hv]
                  have hvt : validate_buffer_in_user_region
                      ((esp + 4) % PTR_MOD) 4 = true := by simpa using hv
                  by_cases hs : validate_string_in_user_region memB
                      (mem ((esp + 4) % PTR_MOD) % PTR_MOD) = false
                  · rw [if_pos hs]
                    exact reads2 h0t hvt (by omega)
                  · rw [if_neg hs]
                    exact reads2 h0t hvt (by omega)
              · rw [if_neg hn5]
                by_cases hn6 : mem esp % PTR_MOD = SYS_WAIT
                · rw [if_pos hn6]
                  by_cases hv : validate_buffer_in_user_region
                      ((esp + 4) % PTR_MOD) 4 = false
                  · rw [if_pos hv]
                    exact reads1 h0t
                  · rw [if_neg hv]
                    have hvt : validate_buffer_in_user_region
                        ((esp + 4) % PTR_MOD) 4 = true := by simpa using hv
                    exact reads2 h0t hvt (by omega)
                · rw [if_neg hn6]
                  by_cases hn7 : mem esp % PTR_MOD = SYS_CREATE
                  · rw [if_pos hn7]
                    by_cases hv : validate_buffer_in_user_region
                        ((esp + 4) % PTR_MOD) 8 = false
                    · rw [if_pos hv]
                      exact reads1 h0t
                    · rw [if_neg hv]
                      have hvt : validate_buffer_in_user_region
                          ((esp + 4) % PTR_MOD) 8 = true := by simpa using hv
                      by_cases hs : validate_string_in_user_region memB
                          (mem ((esp + 4) % PTR_MOD) % PTR_MOD) = false
                      · rw [if_pos hs]
                        exact reads2 h0t hvt (by omega)
                      · rw [if_neg hs]
                        exact reads3 h0t hvt (by omega)
                  · rw [if_neg hn7]
                    by_cases hn8 : mem esp % PTR_MOD = SYS_REMOVE
                    · rw [if_pos hn8]
                      by_cases hv : validate_buffer_in_user_region
                          ((esp + 4) % PTR_MOD) 4 = false
                      · rw [if_pos hv]
                        exact reads1 h0t
                      · rw [if_neg hv]
                        have hvt : validate_buffer_in_user_region
                            ((esp + 4) % PTR_MOD) 4 = true := by
                          simpa using hv
                        by_cases hs : validate_string_in_user_region memB
                            (mem ((esp + 4) % PTR_MOD) % PTR_MOD) = false
                        · rw [if_pos hs]
                          exact reads2 h0t hvt (by omega)
                        · rw [if_neg hs]
                          exact reads2 h0t hvt (by omega)
                    · rw [if_neg hn8]
                      by_cases hn9 : mem esp % PTR_MOD = SYS_OPEN
                      · rw [if_pos hn9]
                        by_cases hv : validate_buffer_in_user_region
                            ((esp + 4) % PTR_MOD) 4 = false
                        · rw [if_pos hv]
                          exact reads1 h0t
                        · rw [if_neg hv]
                          have hvt : validate_buffer_in_user_region
                              ((esp + 4) % PTR_MOD) 4 = true := by
                            simpa using hv
                          by_cases hs : validate_string_in_user_region memB
                              (mem ((esp + 4) % PTR_MOD) % PTR_MOD) = false
                          · rw [if_pos hs]
                            exact reads2 h0t hvt (by omega)
                          · rw [if_neg hs]
                            exact reads2 h0t hvt (by omega)
                      · rw [if_neg hn9]
                        by_cases hn10 : mem esp % PTR_MOD = SYS_FILESIZE
                        · rw [if_pos hn10]
                          by_cases hv : validate_buffer_in_user_region
                              ((esp + 4) % PTR_MOD) 4 = false
                          · rw [if_pos hv]
                            exact reads1 h0t
                          · rw [if_neg hv]
                            have hvt : validate_buffer_in_user_region
                                ((esp + 4) % PTR_MOD) 4 = true := by
                              simpa using hv
                            exact reads2 h0t hvt (by omega)
                        · rw [if_neg hn10]
                          by_cases hn11 : mem esp % PTR_MOD = SYS_CLOSE
                          · rw [if_pos hn11]
                            by_cases hv : validate_buffer_in_user_region
                                ((esp + 4) % PTR_MOD) 4 = false
                            · rw [if_pos hv]
                              exact reads1 h0t
                            · rw [if_neg hv]
                              have hvt : validate_buffer_in_user_region
                                  ((esp + 4) % PTR_MOD) 4 = true := by
                                simpa using hv
                              exact reads2 h0t hvt (by omega)
                          · rw [if_neg hn11]
                            by_cases hn12 : mem esp % PTR_MOD = SYS_READ
                            · rw [if_pos hn12]
                              by_cases hv : validate_buffer_in_user_region
                                  ((esp + 4) % PTR_MOD) 12 = false
                              · rw [if_pos hv]
                                exact reads1 h0t
                              · rw [if_neg hv]
                                have hvt : validate_buffer_in_user_region
                                    ((esp + 4) % PTR_MOD) 12 = true := by
                                  simpa using hv
                                by_cases hb : validate_buffer_in_user_region
                                    (mem ((esp + 8) % PTR_MOD) % PTR_MOD)
                                    (mem ((esp + 12) % PTR_MOD) % PTR_MOD)
                                    = false
                                · rw [if_pos hb]
                                  exact reads23 h0t hvt (by omega)
                                · rw [if_neg hb]
                                  exact reads4 h0t hvt (by omega)
                            · rw [if_neg hn12]
                              exact reads1 h0t
  · intro hf
    unfold syscall_handler
    rw [if_pos hf]
  · intro h0t hf hmem
    unfold syscall_handler
    have hne : ¬ (validate_buffer_in_user_region esp 4 = false) := by
      simp [h0t]
    rw [if_neg hne]
    dsimp only
    have hf12 : validate_buffer_in_user_region ((esp + 4) % PTR_MOD) 12 =
        false := by
      cases hb : validate_buffer_in_user_region ((esp + 4) % PTR_MOD) 12 with
      | false => rfl
      | true =>
        have h2 : validate_buffer_in_user_region ((esp + 4) % PTR_MOD) 4 =
            true := validate_mono (by omega) hb
        rw [hf] at h2
        exact Bool.noConfusion h2
    have hf8 : validate_buffer_in_user_region ((esp + 4) % PTR_MOD) 8 =
        false := by
      cases hb : validate_buffer_in_user_region ((esp + 4) % PTR_MOD) 8 with
      | false => rfl
      | true =>
        have h2 : validate_buffer_in_user_region ((esp + 4) % PTR_MOD) 4 =
            true := validate_mono (by omega) hb
        rw [hf] at h2
        exact Bool.noConfusion h2
    simp only [List.mem_cons, List.not_mem_nil, or_false] at hmem
    rcases hmem with h | h | h | h | h | h | h | h | h | h | h
    · rw [h, if_pos (by decide), if_pos hf]
    · rw [h, if_neg (by decide), if_pos (by decide), if_pos hf12]
    · rw [h, if_neg (by decide), if_neg (by decide), if_pos (by decide),
        if_pos hf]
    · rw [h, if_neg (by decide), if_neg (by decide), if_neg (by decide),
        if_neg (by decide), if_pos (by decide), if_pos hf]
    · rw [h, if_neg (by decide), if_neg (by decide), if_neg (by decide),
        if_neg (by decide), if_neg (by decide), if_pos (by decide),
        if_pos hf]
    · rw [h, if_neg (by decide), if_neg (by decide), if_neg (by decide),
        if_neg (by decide), if_neg (by decide), if_neg (by decide),
        if_pos (by decide), if_pos hf8]
    · rw [h, if_neg (by decide), if_neg (by decide), if_neg (by decide),
        if_neg (by decide), if_neg (by decide), if_neg (by decide),
        if_neg (by decide), if_pos (by decide), if_pos hf]
    · rw [h, if_neg (by decide), if_neg (by decide), if_neg (by decide),
        if_neg (by decide), if_neg (by decide), if_neg (by decide),
        if_neg (by decide), if_neg (by decide), if_pos (by decide),
        if_pos hf]
    · rw [h, if_neg (by decide), if_neg (by decide), if_neg (by decide),
        if_neg (by decide), if_neg (by decide), if_neg (by decide),
        if_neg (by decide), if_neg (by decide), if_neg (by decide),
        if_pos (by decide), if_pos hf]
    · rw [h, if_neg (by decide), if_neg (by decide), if_neg (by decide),
        if_neg (by decide), if_neg (by decide), if_neg (by decide),
        if_neg (by decide), if_neg (by decide), if_neg (by decide),
        if_neg (by decide), if_pos (by decide), if_pos hf]
    · rw [h, if_neg (by decide), if_neg (by decide), if_neg (by decide),
        if_neg (by decide), if_neg (by decide), if_neg (by decide),
        if_neg (by decide), if_neg (by decide), if_neg (by decide),
        if_neg (by decide), if_neg (by decide), if_pos (by decide),
        if_pos hf12]

/-- Witness for Claim C10: with the user stack pointer at PHYS_BASE the
syscall-number validation fails and the handler exits with status -1
without reading any stack word. -/
theorem syscall_handler_validates_witness :
    validate_buffer_in_user_region PHYS_BASE 4 = false ∧
    syscall_handler (fun _ => 1) (fun _ => 1) (fun _ => 0) PHYS_BASE =
      SyscallOutcome.mk (some (-1)) none [] false :=
  ⟨by decide,
   (syscall_handler_validates (fun _ => 1) (fun _ => 1) (fun _ => 0)
     PHYS_BASE).2.1 (by decide)⟩
